import Mathlib

/-!
# Context7 MCP client scripts: request/response correlation

A shallow embedding of `src/context7_example.js` (class `Context7Client`) and of
`src/test_context7.js` (class `Context7Tester`), and theorems about the
correlation of outbound requests with inbound response lines.

Modelling conventions.

* The JavaScript runtime is not part of the repository.  `JSON.parse` and
  `JSON.stringify` are parameters (`parse`, `stringify`) of every definition that
  calls them; the theorems hold for every choice of them.
* JSON numbers are idealised as integers (`Json.num`); `requestId++` is the
  successor on `Nat`, which is what it computes below `2 ^ 53`.
* Promises and timers live in explicit tables of the state.  A promise cell also
  counts how many times its `resolve` or `reject` has been invoked.
* `Context7Client` is modelled from the point in `start()` where the subprocess has
  been spawned, so that `this.mcpProcess.stdin.write` appends a chunk to `stdin`.
* Console output is presentation and is not modelled; a property read made while
  building a log line (`content.text.length`) is, since it can throw.
* The method `initialize` of the client is embedded as `initializeSend` (up to its
  `await`) and `initializeResult` (after it), `initialize` being a reserved word.
* The passage of time is abstracted: an armed timer may fire at any moment.
-/

namespace Context7

/-! ## JavaScript values -/

/-- A decoded JSON value, as returned by `JSON.parse`. -/
inductive Json where
  | null
  | bool (b : Bool)
  | num (n : Int)
  | str (s : String)
  | arr (items : List Json)
  | obj (fields : List (String × Json))

/-- A JavaScript value read from a decoded message: `none` is `undefined`. -/
abbrev JsVal := Option Json

/-- What a JavaScript `throw` carries in these scripts. -/
inductive JsError where
  | syntaxError
  | typeError
  | error (message : String)
  deriving DecidableEq

/-- JavaScript truthiness (`if (v)`, `a && b`). -/
def truthy : JsVal → Bool
  | none => false
  | some Json.null => false
  | some (Json.bool b) => b
  | some (Json.num n) => n != 0
  | some (Json.str s) => s != ""
  | some (Json.arr _) => true
  | some (Json.obj _) => true

/-- Own property of a decoded object, by name. -/
def lookupField (key : String) : List (String × Json) → JsVal
  | [] => none
  | (k, v) :: rest => if k = key then some v else lookupField key rest

/-- Number of UTF-16 code units of a string (`s.length` in JavaScript). -/
def utf16Length (s : String) : Nat :=
  (s.toList.map (fun c => if c.toNat < 65536 then 1 else 2)).sum

/-- Property read `v.key` for a property name that is not an array index.
Reading a property of `undefined` or `null` throws a `TypeError`. -/
def getProp (v : JsVal) (key : String) : Except JsError JsVal :=
  match v with
  | none => Except.error JsError.typeError
  | some Json.null => Except.error JsError.typeError
  | some (Json.obj fields) => Except.ok (lookupField key fields)
  | some (Json.arr items) =>
      if key = "length" then Except.ok (some (Json.num items.length)) else Except.ok none
  | some (Json.str s) =>
      if key = "length" then Except.ok (some (Json.num (utf16Length s))) else Except.ok none
  | some (Json.bool _) => Except.ok none
  | some (Json.num _) => Except.ok none

/-- Indexed read `v[0]`. -/
def getIndex0 (v : JsVal) : Except JsError JsVal :=
  match v with
  | none => Except.error JsError.typeError
  | some Json.null => Except.error JsError.typeError
  | some (Json.obj fields) => Except.ok (lookupField "0" fields)
  | some (Json.arr items) => Except.ok items.head?
  | some (Json.str s) => Except.ok (s.toList.head?.map (fun c => Json.str (String.singleton c)))
  | some (Json.bool _) => Except.ok none
  | some (Json.num _) => Except.ok none

/-- Strict equality `v === 'text'` against a string constant. -/
def strictEqStr (v : JsVal) (s : String) : Bool :=
  match v with
  | some (Json.str t) => t == s
  | _ => false

/-! ## Strings: `trim` and `split('\n')` -/

/-- White space and line terminators removed by `String.prototype.trim`. -/
def isJsWhitespace (c : Char) : Bool :=
  let n := c.toNat
  n == 9 || n == 10 || n == 11 || n == 12 || n == 13 || n == 32 || n == 160 ||
  n == 5760 || (8192 ≤ n && n ≤ 8202) || n == 8232 || n == 8233 || n == 8239 ||
  n == 8287 || n == 12288 || n == 65279

/-- Drop trailing characters satisfying `f`. -/
def dropTrailing (f : Char → Bool) : List Char → List Char
  | [] => []
  | c :: cs =>
      match dropTrailing f cs with
      | [] => if f c then [] else [c]
      | r => c :: r

/-- The method `s.trim()`. -/
def jsTrim (s : String) : String :=
  String.mk (dropTrailing isJsWhitespace (s.toList.dropWhile isJsWhitespace))

/-- Split a character list at every line feed. -/
def splitChars : List Char → List (List Char)
  | [] => [[]]
  | c :: cs =>
      if c.toNat == 10 then [] :: splitChars cs
      else
        match splitChars cs with
        | [] => [[c]]
        | l :: ls => (c :: l) :: ls

/-- The call `s.split('\n')`. -/
def splitLines (s : String) : List String :=
  (splitChars s.toList).map String.mk

/-! ## Promises, timers and the pending map -/

/-- State of a promise. -/
inductive PromiseState where
  | pending
  | fulfilled (value : Json)
  | rejected (reason : JsError)

/-- A promise with the number of `resolve`/`reject` invocations made on it. -/
structure PromiseCell where
  state : PromiseState
  settleCalls : Nat

/-- State of a `setTimeout` alarm. -/
inductive TimerState where
  | armed
  | cleared
  | fired
  deriving DecidableEq

/-- The alarm armed by `sendRequest`: its callback closes over `id` and `reject`. -/
structure Timer where
  id : Nat
  promise : Nat
  state : TimerState

/-- The `resolve` member of a pending entry: the promise's own `resolve` (first
`set` in `sendRequest`) or the wrapper that clears the alarm first (second `set`). -/
inductive ResolveFn where
  | direct (promise : Nat)
  | clearing (timer : Nat) (promise : Nat)
  deriving DecidableEq

/-- A value of `pendingRequests`: `{ resolve, reject }`. -/
structure Entry where
  resolve : ResolveFn
  reject : Nat
  deriving DecidableEq

/-- Invoke `resolve` or `reject` of promise `p`: the first invocation settles it,
later ones have no effect. -/
def settle (ps : List PromiseCell) (p : Nat) (outcome : PromiseState) : List PromiseCell :=
  match ps[p]? with
  | none => ps
  | some c =>
      ps.set p
        { state := (match c.state with
            | PromiseState.pending => outcome
            | s => s),
          settleCalls := c.settleCalls + 1 }

/-- The call `clearTimeout(t)`. -/
def clearTimeout (ts : List Timer) (t : Nat) : List Timer :=
  match ts[t]? with
  | none => ts
  | some tm => if tm.state = TimerState.armed then ts.set t { tm with state := TimerState.cleared } else ts

/-- The method `Map.prototype.has` on a number key. -/
def mapHas : List (Nat × Entry) → Nat → Bool
  | [], _ => false
  | (k, _) :: rest, key => if k = key then true else mapHas rest key

/-- The method `Map.prototype.get` on a number key. -/
def mapGet : List (Nat × Entry) → Nat → Option Entry
  | [], _ => none
  | (k, e) :: rest, key => if k = key then some e else mapGet rest key

/-- The method `Map.prototype.set`: replace in place, or append. -/
def mapSet : List (Nat × Entry) → Nat → Entry → List (Nat × Entry)
  | [], key, e => [(key, e)]
  | (k, e') :: rest, key, e =>
      if k = key then (key, e) :: rest else (k, e') :: mapSet rest key e

/-- The method `Map.prototype.delete`: no entry with the key remains. -/
def mapDelete : List (Nat × Entry) → Nat → List (Nat × Entry)
  | [], _ => []
  | (k, e) :: rest, key =>
      if k = key then mapDelete rest key else (k, e) :: mapDelete rest key

/-- The number key a JavaScript value is the same as (SameValueZero), if any: the
keys of `pendingRequests` are the natural numbers allocated from `requestId`. -/
def keyOf : JsVal → Option Nat
  | some (Json.num (Int.ofNat n)) => some n
  | _ => none

/-- The call `pendingRequests.has(v)` on any value. -/
def hasKey (m : List (Nat × Entry)) (v : JsVal) : Bool :=
  match keyOf v with
  | some key => mapHas m key
  | none => false

/-- The call `pendingRequests.get(v)` on any value. -/
def getKey (m : List (Nat × Entry)) (v : JsVal) : Option Entry :=
  match keyOf v with
  | some key => mapGet m key
  | none => none

/-- The call `pendingRequests.delete(v)` on any value. -/
def deleteKey (m : List (Nat × Entry)) (v : JsVal) : List (Nat × Entry) :=
  match keyOf v with
  | some key => mapDelete m key
  | none => m

/-! ## Context7Client -/

/-- State of a `Context7Client` with its spawned subprocess, promises and alarms. -/
structure World where
  requestId : Nat
  pendingRequests : List (Nat × Entry)
  promises : List PromiseCell
  timers : List Timer
  stdin : List String

/-- The constructor (`requestId = 1`, empty map) followed by the spawn in `start()`. -/
def World.fresh : World :=
  { requestId := 1, pendingRequests := [], promises := [], timers := [], stdin := [] }

/-- Invoke the `resolve` member of an entry with a response. -/
def callResolve (w : World) (r : ResolveFn) (response : Json) : World :=
  match r with
  | ResolveFn.direct p =>
      { w with promises := settle w.promises p (PromiseState.fulfilled response) }
  | ResolveFn.clearing t p =>
      { w with
        timers := clearTimeout w.timers t,
        promises := settle w.promises p (PromiseState.fulfilled response) }

/-- Body of the `for` loop of `handleResponse` for one line; an exception leaves
the loop. -/
def handleLine (parse : String → Except JsError Json) (w : World) (line : String) :
    Except JsError World :=
  if jsTrim line = "" then Except.ok w
  else
    match parse line with
    | Except.error e => Except.error e
    | Except.ok response =>
        match getProp (some response) "id" with
        | Except.error e => Except.error e
        | Except.ok idv =>
            if truthy idv && hasKey w.pendingRequests idv then
              match getKey w.pendingRequests idv with
              | none => Except.error JsError.typeError
              | some entry =>
                  Except.ok
                    (callResolve
                      { w with pendingRequests := deleteKey w.pendingRequests idv }
                      entry.resolve response)
            else Except.ok w

/-- The `for` loop inside the `try` block: the state reached and the exception
that ended the loop, if any. -/
def handleLines (parse : String → Except JsError Json) :
    World → List String → World × Option JsError
  | w, [] => (w, none)
  | w, line :: rest =>
      match handleLine parse w line with
      | Except.ok w' => handleLines parse w' rest
      | Except.error e => (w, some e)

/-- The method `handleResponse(data)`: the `catch` block only logs. -/
def handleResponse (parse : String → Except JsError Json) (w : World) (data : String) : World :=
  (handleLines parse w (splitLines (jsTrim data))).1

/-- The request record built by `sendRequest`. -/
def requestRecord (id : Nat) (method : String) (params : Option Json) : Json :=
  Json.obj
    [("jsonrpc", Json.str "2.0"),
     ("id", Json.num id),
     ("method", Json.str method),
     ("params", params.getD (Json.obj []))]

/-- The method `sendRequest(method, params = {})`: the new state and the promise
returned to the caller. -/
def sendRequest (stringify : Json → String) (w : World) (method : String)
    (params : Option Json) : World × Nat :=
  let id := w.requestId
  let request := requestRecord id method params
  let p := w.promises.length
  let t := w.timers.length
  let pending1 := mapSet w.pendingRequests id { resolve := ResolveFn.direct p, reject := p }
  let pending2 := mapSet pending1 id { resolve := ResolveFn.clearing t p, reject := p }
  ({ requestId := id + 1,
     pendingRequests := pending2,
     promises := w.promises ++ [{ state := PromiseState.pending, settleCalls := 0 }],
     timers := w.timers ++ [{ id := id, promise := p, state := TimerState.armed }],
     stdin := w.stdin ++ [stringify request ++ "\n"] }, p)

/-- The error of the timeout callback. -/
def timeoutError : JsError := JsError.error "请求超时"

/-- The alarm `t` goes off: its callback deletes the entry and rejects. An alarm
that is not armed does not go off. -/
def fireTimeout (w : World) (t : Nat) : World :=
  match w.timers[t]? with
  | none => w
  | some tm =>
      if tm.state = TimerState.armed then
        { w with
          timers := w.timers.set t { tm with state := TimerState.fired },
          pendingRequests := mapDelete w.pendingRequests tm.id,
          promises := settle w.promises tm.promise (PromiseState.rejected timeoutError) }
      else w

/-- What can happen to a client: a call of `sendRequest`, a `data` event on the
subprocess's stdout, an alarm going off. -/
inductive Event where
  | send (method : String) (params : Option Json)
  | data (chunk : String)
  | timeout (timer : Nat)

/-- One event. -/
def step (parse : String → Except JsError Json) (stringify : Json → String) (w : World) :
    Event → World
  | Event.send method params => (sendRequest stringify w method params).1
  | Event.data chunk => handleResponse parse w chunk
  | Event.timeout t => fireTimeout w t

/-- A sequence of events, in order. -/
def run (parse : String → Except JsError Json) (stringify : Json → String) :
    World → List Event → World
  | w, [] => w
  | w, ev :: evs => run parse stringify (step parse stringify w ev) evs

/-- States a client can be in: those reached from the fresh client by events. -/
def Reachable (parse : String → Except JsError Json) (stringify : Json → String)
    (w : World) : Prop :=
  ∃ evs, run parse stringify World.fresh evs = w

/-- The identifiers allocated by the `sendRequest` calls of a sequence of events,
in order of allocation. -/
def assignedIds (parse : String → Except JsError Json) (stringify : Json → String) :
    World → List Event → List Nat
  | _, [] => []
  | w, Event.send method params :: evs =>
      w.requestId ::
        assignedIds parse stringify (step parse stringify w (Event.send method params)) evs
  | w, ev :: evs => assignedIds parse stringify (step parse stringify w ev) evs

/-- Number of `sendRequest` calls in a sequence of events. -/
def sendCount : List Event → Nat
  | [] => 0
  | Event.send _ _ :: evs => sendCount evs + 1
  | _ :: evs => sendCount evs

/-- What `await promise` yields once the promise is settled: a value, or a throw. -/
def awaited (ps : List PromiseCell) (p : Nat) : Option (Except JsError Json) :=
  match ps[p]? with
  | some { state := PromiseState.fulfilled v, .. } => some (Except.ok v)
  | some { state := PromiseState.rejected e, .. } => some (Except.error e)
  | _ => none

/-- The parameters that the method `initialize()` of the client passes. -/
def initializeParams : Json :=
  Json.obj
    [("protocolVersion", Json.str "2024-11-05"),
     ("capabilities", Json.obj [("tools", Json.obj [])]),
     ("clientInfo",
       Json.obj [("name", Json.str "context7-example"), ("version", Json.str "1.0.0")])]

/-- The method `initialize()` up to its `await`: the request it sends. -/
def initializeSend (stringify : Json → String) (w : World) : World × Nat :=
  sendRequest stringify w "initialize" (some initializeParams)

/-- The method `initialize()` after its `await`: `return response`, or the
rejection of the awaited promise rethrown; `none` while the promise is pending. -/
def initializeResult (w : World) (p : Nat) : Option (Except JsError Json) :=
  match awaited w.promises p with
  | some (Except.ok response) => some (Except.ok response)
  | some (Except.error e) => some (Except.error e)
  | none => none

/-- The parameters `resolveLibraryId(libraryName)` sends with `tools/call`. -/
def resolveLibraryIdParams (libraryName : String) : Json :=
  Json.obj
    [("name", Json.str "resolve-library-id"),
     ("arguments", Json.obj [("libraryName", Json.str libraryName)])]

/-- The parameters `getLibraryDocs(libraryId, topic = null, tokens = 10000)` sends
with `tools/call`: `topic` is added to the arguments when it is truthy. -/
def getLibraryDocsParams (libraryId : String) (topic : Option String) (tokens : Int) : Json :=
  Json.obj
    [("name", Json.str "get-library-docs"),
     ("arguments",
       Json.obj
         ([("context7CompatibleLibraryID", Json.str libraryId), ("tokens", Json.num tokens)] ++
           (match topic with
            | some text => if text = "" then [] else [("topic", Json.str text)]
            | none => [])))]

/-- The method `getLibraryDocs` up to its `await`. -/
def getLibraryDocsSend (stringify : Json → String) (w : World) (libraryId : String)
    (topic : Option String) (tokens : Int) : World × Nat :=
  sendRequest stringify w "tools/call" (some (getLibraryDocsParams libraryId topic tokens))

/-- The method `resolveLibraryId` up to its `await`. -/
def resolveLibraryIdSend (stringify : Json → String) (w : World) (libraryName : String) :
    World × Nat :=
  sendRequest stringify w "tools/call" (some (resolveLibraryIdParams libraryName))

/-- The shared shape of `resolveLibraryId` and `getLibraryDocs` after the `await`:
`if (response.result && response.result.content) { const content =
response.result.content[0]; if (content.type === 'text') { ...; return
content.text; } } throw new Error(message)`.  `logLength` says whether the log
line reads `content.text.length` (it does in `getLibraryDocs`); the conversion of
`content.text` to a string for the log line is not modelled. -/
def extractText (message : String) (logLength : Bool) (response : Json) :
    Except JsError JsVal :=
  match getProp (some response) "result" with
  | Except.error e => Except.error e
  | Except.ok result =>
      if truthy result then
        match getProp result "content" with
        | Except.error e => Except.error e
        | Except.ok contentList =>
            if truthy contentList then
              match getIndex0 contentList with
              | Except.error e => Except.error e
              | Except.ok content =>
                  match getProp content "type" with
                  | Except.error e => Except.error e
                  | Except.ok ty =>
                      if strictEqStr ty "text" then
                        match getProp content "text" with
                        | Except.error e => Except.error e
                        | Except.ok text =>
                            if logLength then
                              match getProp text "length" with
                              | Except.error e => Except.error e
                              | Except.ok _ => Except.ok text
                            else Except.ok text
                      else Except.error (JsError.error message)
            else Except.error (JsError.error message)
      else Except.error (JsError.error message)

/-- The method `resolveLibraryId` after its `await`, on the response message. -/
def resolveLibraryId (response : Json) : Except JsError JsVal :=
  extractText "无法解析库ID" false response

/-- The method `getLibraryDocs` after its `await`, on the response message. -/
def getLibraryDocs (response : Json) : Except JsError JsVal :=
  extractText "无法获取文档" true response

/-! ## Well-formed client states -/

/-- Well-formedness of a client state: every pending entry is the wrapper of the
second `set`, its alarm is armed and its promise untouched; every armed alarm has
its entry; every live key is below the counter. -/
structure Inv (w : World) : Prop where
  posId : 0 < w.requestId
  lenEq : w.timers.length = w.promises.length
  keyLt : ∀ k e, mapGet w.pendingRequests k = some e → 0 < k ∧ k < w.requestId
  entry : ∀ k e, mapGet w.pendingRequests k = some e →
    ∃ t, e = { resolve := ResolveFn.clearing t t, reject := t } ∧
      w.timers[t]? = some { id := k, promise := t, state := TimerState.armed } ∧
      w.promises[t]? = some { state := PromiseState.pending, settleCalls := 0 }
  armedOk : ∀ t tm, w.timers[t]? = some tm → tm.state = TimerState.armed →
    mapGet w.pendingRequests tm.id = some { resolve := ResolveFn.clearing t t, reject := t }

/-- The alarm of promise `p` exists and is no longer armed. -/
def Quiet (w : World) (p : Nat) : Prop :=
  ∃ tm, w.timers[p]? = some tm ∧ tm.state ≠ TimerState.armed

/-! ## Context7Tester -/

/-- The alarm armed by `sendMCPRequest`: its callback closes over `reject` only. -/
structure TesterTimer where
  promise : Nat
  state : TimerState

/-- The listener registered with `stdout.once('data', ...)`: it closes over the
alarm and over `resolve`/`reject` of the promise. -/
structure Listener where
  timer : Nat
  promise : Nat

/-- State of a `Context7Tester` with its subprocess, promises and alarms. -/
structure Tester where
  listeners : List Listener
  promises : List PromiseCell
  timers : List TesterTimer
  stdin : List String

/-- A tester whose subprocess has been started and that has sent nothing. -/
def Tester.fresh : Tester :=
  { listeners := [], promises := [], timers := [], stdin := [] }

/-- The call `clearTimeout(t)` on the tester's alarms. -/
def clearTesterTimeout (ts : List TesterTimer) (t : Nat) : List TesterTimer :=
  match ts[t]? with
  | none => ts
  | some tm =>
      if tm.state = TimerState.armed then ts.set t { tm with state := TimerState.cleared }
      else ts

/-- The method `sendMCPRequest(method, params = {})`; `now` is `Date.now()`. -/
def sendMCPRequest (stringify : Json → String) (now : Nat) (s : Tester) (method : String)
    (params : Option Json) : Tester × Nat :=
  let request := requestRecord now method params
  let p := s.promises.length
  let t := s.timers.length
  ({ listeners := s.listeners ++ [{ timer := t, promise := p }],
     promises := s.promises ++ [{ state := PromiseState.pending, settleCalls := 0 }],
     timers := s.timers ++ [{ promise := p, state := TimerState.armed }],
     stdin := s.stdin ++ [stringify request ++ "\n"] }, p)

/-- The listener body: `clearTimeout(timeout)`, then resolve with the decoded
delivery, or reject with the decode error. -/
def callListener (parse : String → Except JsError Json) (s : Tester) (l : Listener)
    (data : String) : Tester :=
  match parse data with
  | Except.ok response =>
      { s with
        timers := clearTesterTimeout s.timers l.timer,
        promises := settle s.promises l.promise (PromiseState.fulfilled response) }
  | Except.error e =>
      { s with
        timers := clearTesterTimeout s.timers l.timer,
        promises := settle s.promises l.promise (PromiseState.rejected e) }

/-- What a listener settles its promise with, for a delivery. -/
def deliveryOutcome (parse : String → Except JsError Json) (data : String) : PromiseState :=
  match parse data with
  | Except.ok response => PromiseState.fulfilled response
  | Except.error e => PromiseState.rejected e

/-- Run listeners in order of registration. -/
def callListeners (parse : String → Except JsError Json) (data : String) :
    Tester → List Listener → Tester
  | s, [] => s
  | s, l :: ls => callListeners parse data (callListener parse s l data) ls

/-- A `data` event on stdout: every `once` listener is removed and run. -/
def Tester.deliver (parse : String → Except JsError Json) (s : Tester) (data : String) :
    Tester :=
  callListeners parse data { s with listeners := [] } s.listeners

/-- The tester's alarm `t` goes off: its callback rejects. -/
def Tester.fireTimeout (s : Tester) (t : Nat) : Tester :=
  match s.timers[t]? with
  | none => s
  | some tm =>
      if tm.state = TimerState.armed then
        { s with
          timers := s.timers.set t { tm with state := TimerState.fired },
          promises := settle s.promises tm.promise (PromiseState.rejected timeoutError) }
      else s

/-- What can happen to a tester: a call of `sendMCPRequest` (with the clock value
it reads), a `data` event on the subprocess's stdout, an alarm going off. -/
inductive TesterEvent where
  | send (now : Nat) (method : String) (params : Option Json)
  | data (chunk : String)
  | timeout (timer : Nat)

/-- One event of the tester. -/
def Tester.step (parse : String → Except JsError Json) (stringify : Json → String)
    (s : Tester) : TesterEvent → Tester
  | TesterEvent.send now method params => (sendMCPRequest stringify now s method params).1
  | TesterEvent.data chunk => Tester.deliver parse s chunk
  | TesterEvent.timeout t => Tester.fireTimeout s t

/-- A sequence of events of the tester, in order. -/
def Tester.run (parse : String → Except JsError Json) (stringify : Json → String) :
    Tester → List TesterEvent → Tester
  | s, [] => s
  | s, ev :: evs => Tester.run parse stringify (Tester.step parse stringify s ev) evs

/-- States a tester can be in: those reached from the fresh tester by events. -/
def Tester.Reachable (parse : String → Except JsError Json) (stringify : Json → String)
    (s : Tester) : Prop :=
  ∃ evs, Tester.run parse stringify Tester.fresh evs = s

/-- Well-formedness of a tester state: the alarm armed by the `n`-th call rejects
the promise of the `n`-th call. -/
structure TesterInv (s : Tester) : Prop where
  lenEq : s.timers.length = s.promises.length
  timerOk : ∀ (t : Nat) (tm : TesterTimer), s.timers[t]? = some tm → tm.promise = t

/-! ## Sample data -/

/-- The text `{"jsonrpc":"2.0","id":1,"result":{}}`. -/
def sampleLine1 : String := "\x7b\"jsonrpc\":\"2.0\",\"id\":1,\"result\":\x7b\x7d\x7d"

/-- The text `{"jsonrpc":"2.0","id":2,"error":{"code":-32601}}`. -/
def sampleLine2 : String :=
  "\x7b\"jsonrpc\":\"2.0\",\"id\":2,\"error\":\x7b\"code\":-32601\x7d\x7d"

/-- The text `{"jsonrpc":"2.0","id":1,"result":{"content":[]}}`. -/
def sampleLineEmptyContent : String :=
  "\x7b\"jsonrpc\":\"2.0\",\"id\":1,\"result\":\x7b\"content\":[]\x7d\x7d"

/-- What `sampleLine1` decodes to. -/
def sampleMsg1 : Json :=
  Json.obj [("jsonrpc", Json.str "2.0"), ("id", Json.num 1), ("result", Json.obj [])]

/-- What `sampleLine2` decodes to. -/
def sampleMsg2 : Json :=
  Json.obj
    [("jsonrpc", Json.str "2.0"), ("id", Json.num 2),
     ("error", Json.obj [("code", Json.num (-32601))])]

/-- What `sampleLineEmptyContent` decodes to. -/
def sampleMsgEmptyContent : Json :=
  Json.obj
    [("jsonrpc", Json.str "2.0"), ("id", Json.num 1),
     ("result", Json.obj [("content", Json.arr [])])]

/-- A decoder that agrees with `JSON.parse` on the sample texts, on `null` and on
the undecodable text `oops`; it is used only at these texts. -/
def sampleParse (s : String) : Except JsError Json :=
  if s = sampleLine1 then Except.ok sampleMsg1
  else if s = sampleLine1 ++ "\n" then Except.ok sampleMsg1
  else if s = sampleLine2 then Except.ok sampleMsg2
  else if s = sampleLineEmptyContent then Except.ok sampleMsgEmptyContent
  else if s = "null" then Except.ok Json.null
  else Except.error JsError.syntaxError

/-- A serializer used where the written text does not matter. -/
def sampleStringify (_ : Json) : String := "\x7b\x7d"

/-- Two requests sent by a fresh client: keys 1 and 2, promises 0 and 1. -/
def twoPending : World :=
  run sampleParse sampleStringify World.fresh
    [Event.send "tools/list" none, Event.send "tools/call" none]

/-- Requests 1 and 2 sent by a fresh client, then the response to 1 delivered:
request 2 is still pending, request 1 no longer is. -/
def oneResolved : World :=
  run sampleParse sampleStringify World.fresh
    [Event.send "tools/list" none, Event.send "tools/call" none,
     Event.data (sampleLine1 ++ "\n")]

/-- A delivery of two lines: the text `null`, then the response to 1. -/
def nullThenResponse : String := "null\n" ++ sampleLine1 ++ "\n"

/-- A delivery of three lines: an undecodable one, then the responses to 1 and 2. -/
def malformedFirst : String := "oops\n" ++ sampleLine1 ++ "\n" ++ sampleLine2 ++ "\n"

/-- Request A (id 1) is sent and times out, request B (id 2) is sent, and the late
response to A is delivered. -/
def lateResponseRun : Tester :=
  Tester.deliver sampleParse
    (sendMCPRequest sampleStringify 2
      (Tester.fireTimeout (sendMCPRequest sampleStringify 1 Tester.fresh "tools/list" none).1 0)
      "tools/list" none).1
    (sampleLine1 ++ "\n")

/-! ## The pending map -/

theorem mapGet_mapSet (m : List (Nat × Entry)) (k k' : Nat) (e : Entry) :
    mapGet (mapSet m k e) k' = if k' = k then some e else mapGet m k' := by
  induction m with
  | nil =>
      by_cases h : k' = k
      · simp [mapSet, mapGet, h]
      · have h' : ¬ k = k' := fun x => h x.symm
        simp [mapSet, mapGet, h, h']
  | cons x rest ih =>
      obtain ⟨k0, e0⟩ := x
      by_cases h0 : k0 = k
      · subst h0
        by_cases h : k' = k0
        · simp [mapSet, mapGet, h]
        · have h' : ¬ k0 = k' := fun x => h x.symm
          simp [mapSet, mapGet, h, h']
      · by_cases h : k' = k
        · subst h
          simp [mapSet, mapGet, h0, ih]
        · by_cases h1 : k0 = k'
          · simp [mapSet, mapGet, h0, h, h1]
          · simp [mapSet, mapGet, h0, h, h1, ih]

theorem mapGet_mapDelete (m : List (Nat × Entry)) (k k' : Nat) :
    mapGet (mapDelete m k) k' = if k' = k then none else mapGet m k' := by
  induction m with
  | nil => simp [mapDelete, mapGet]
  | cons x rest ih =>
      obtain ⟨k0, e0⟩ := x
      by_cases h0 : k0 = k
      · subst h0
        by_cases h : k' = k0
        · subst h
          simpa [mapDelete, mapGet] using ih
        · have h' : ¬ k0 = k' := fun x => h x.symm
          simp [mapDelete, mapGet, h, h', ih]
      · by_cases h : k' = k
        · subst h
          simp [mapDelete, mapGet, h0, ih]
        · by_cases h1 : k0 = k'
          · simp [mapDelete, mapGet, h0, h, h1]
          · simp [mapDelete, mapGet, h0, h, h1, ih]

theorem mapHas_eq_isSome (m : List (Nat × Entry)) (k : Nat) :
    mapHas m k = (mapGet m k).isSome := by
  induction m with
  | nil => simp [mapHas, mapGet]
  | cons x rest ih =>
      obtain ⟨k0, e0⟩ := x
      by_cases h0 : k0 = k
      · simp [mapHas, mapGet, h0]
      · simp [mapHas, mapGet, h0, ih]

/-! ## Promise and alarm tables -/

theorem settle_getElem? (ps : List PromiseCell) (p q : Nat) (o : PromiseState) :
    (settle ps p o)[q]? =
      if q = p then
        (ps[p]?).map (fun c =>
          { state := (match c.state with
              | PromiseState.pending => o
              | s => s),
            settleCalls := c.settleCalls + 1 })
      else ps[q]? := by
  unfold settle
  cases hp : ps[p]? with
  | none =>
      by_cases h : q = p
      · subst h; simp [hp]
      · simp [h]
  | some c =>
      by_cases h : q = p
      · subst h
        have hlt : q < ps.length := by
          by_contra hge
          have : ps[q]? = none := List.getElem?_eq_none (by omega)
          simp [this] at hp
        simp [List.getElem?_set, hlt]
      · have h' : ¬ p = q := fun x => h x.symm
        simp [List.getElem?_set, h, h']

theorem settle_length (ps : List PromiseCell) (p : Nat) (o : PromiseState) :
    (settle ps p o).length = ps.length := by
  unfold settle
  cases ps[p]? <;> simp

theorem clearTimeout_length (ts : List Timer) (t : Nat) :
    (clearTimeout ts t).length = ts.length := by
  unfold clearTimeout
  cases ts[t]? with
  | none => simp
  | some tm => by_cases h : tm.state = TimerState.armed <;> simp [h]

theorem clearTimeout_getElem?_ne (ts : List Timer) (t q : Nat) (h : q ≠ t) :
    (clearTimeout ts t)[q]? = ts[q]? := by
  unfold clearTimeout
  have h' : ¬ t = q := fun x => h x.symm
  cases ts[t]? with
  | none => simp
  | some tm => by_cases ha : tm.state = TimerState.armed <;> simp [ha, List.getElem?_set, h']

theorem clearTimeout_getElem?_armed (ts : List Timer) (t : Nat) (tm : Timer)
    (h : ts[t]? = some tm) (ha : tm.state = TimerState.armed) :
    (clearTimeout ts t)[t]? = some { tm with state := TimerState.cleared } := by
  unfold clearTimeout
  have hlt : t < ts.length := by
    by_contra hge
    have : ts[t]? = none := List.getElem?_eq_none (by omega)
    simp [this] at h
  simp [h, ha, List.getElem?_set, hlt]

theorem getElem?_lt_of_eq_some {α : Type} (xs : List α) (i : Nat) (x : α)
    (h : xs[i]? = some x) : i < xs.length := by
  by_contra hge
  have : xs[i]? = none := List.getElem?_eq_none (by omega)
  simp [this] at h

/-! ## The invariant of reachable client states -/

theorem inv_fresh : Inv World.fresh := by
  constructor
  · simp [World.fresh]
  · simp [World.fresh]
  · intro k e h; simp [World.fresh, mapGet] at h
  · intro k e h; simp [World.fresh, mapGet] at h
  · intro t tm h; simp [World.fresh] at h

/-- The pending map after `sendRequest`. -/
theorem sendRequest_mapGet (stringify : Json → String) (w : World) (method : String)
    (params : Option Json) (k : Nat) :
    mapGet (sendRequest stringify w method params).1.pendingRequests k =
      if k = w.requestId then
        some { resolve := ResolveFn.clearing w.timers.length w.promises.length,
               reject := w.promises.length }
      else mapGet w.pendingRequests k := by
  simp only [sendRequest, mapGet_mapSet]
  by_cases h : k = w.requestId <;> simp [h]

theorem inv_sendRequest (stringify : Json → String) (w : World) (method : String)
    (params : Option Json) (hw : Inv w) : Inv (sendRequest stringify w method params).1 := by
  have hlen := hw.lenEq
  constructor
  · simp [sendRequest]
  · simp [sendRequest, hlen]
  · intro k e h
    rw [sendRequest_mapGet] at h
    by_cases hk : k = w.requestId
    · subst hk
      exact ⟨hw.posId, by simp [sendRequest]⟩
    · simp [hk] at h
      have := hw.keyLt k e h
      exact ⟨this.1, by simp [sendRequest]; omega⟩
  · intro k e h
    rw [sendRequest_mapGet] at h
    by_cases hk : k = w.requestId
    · subst hk
      simp at h
      refine ⟨w.promises.length, ?_, ?_, ?_⟩
      · rw [← h, hlen]
      · simp [sendRequest, ← hlen]
      · simp [sendRequest]
    · simp [hk] at h
      obtain ⟨t, he, ht, hp⟩ := hw.entry k e h
      refine ⟨t, he, ?_, ?_⟩
      · have hlt := getElem?_lt_of_eq_some _ _ _ ht
        simp [sendRequest, List.getElem?_append_left hlt, ht]
      · have hlt := getElem?_lt_of_eq_some _ _ _ hp
        simp [sendRequest, List.getElem?_append_left hlt, hp]
  · intro t tm h ha
    rw [sendRequest_mapGet]
    by_cases hlt : t < w.timers.length
    · have h' : w.timers[t]? = some tm := by
        simpa [sendRequest, List.getElem?_append_left hlt] using h
      have hm := hw.armedOk t tm h' ha
      have := (hw.keyLt _ _ hm).2
      have hne : ¬ tm.id = w.requestId := by omega
      simp [hne, hm]
    · have hge : w.timers.length ≤ t := by omega
      simp only [sendRequest] at h
      rw [List.getElem?_append_right hge] at h
      cases hd : t - w.timers.length with
      | zero =>
          rw [hd] at h
          simp at h
          subst h
          have hteq : t = w.timers.length := by omega
          simp [hteq, hlen]
      | succ n =>
          rw [hd] at h
          simp at h

/-- The matched branch of `handleLine` on a well-formed state. -/
theorem resolve_step (w : World) (hw : Inv w) (key : Nat) (entry : Entry) (response : Json)
    (hget : mapGet w.pendingRequests key = some entry) :
    ∃ t, entry = { resolve := ResolveFn.clearing t t, reject := t } ∧
      callResolve { w with pendingRequests := mapDelete w.pendingRequests key }
          entry.resolve response =
        { w with
          pendingRequests := mapDelete w.pendingRequests key,
          timers := clearTimeout w.timers t,
          promises := settle w.promises t (PromiseState.fulfilled response) } ∧
      w.timers[t]? = some { id := key, promise := t, state := TimerState.armed } ∧
      w.promises[t]? = some { state := PromiseState.pending, settleCalls := 0 } ∧
      (clearTimeout w.timers t)[t]? =
        some { id := key, promise := t, state := TimerState.cleared } ∧
      (settle w.promises t (PromiseState.fulfilled response))[t]? =
        some { state := PromiseState.fulfilled response, settleCalls := 1 } := by
  obtain ⟨t, he, ht, hp⟩ := hw.entry key entry hget
  refine ⟨t, he, ?_, ht, hp, ?_, ?_⟩
  · subst he
    simp [callResolve]
  · rw [clearTimeout_getElem?_armed _ _ _ ht rfl]
  · rw [settle_getElem?]
    simp [hp]

theorem inv_resolve (w : World) (hw : Inv w) (key t : Nat) (response : Json)
    (hget : mapGet w.pendingRequests key =
      some { resolve := ResolveFn.clearing t t, reject := t }) :
    Inv { w with
          pendingRequests := mapDelete w.pendingRequests key,
          timers := clearTimeout w.timers t,
          promises := settle w.promises t (PromiseState.fulfilled response) } := by
  obtain ⟨t0, he0, ht, hp⟩ := hw.entry key _ hget
  have e0 : t = t0 := by injection he0 with _ b
  subst e0
  constructor
  · exact hw.posId
  · simp [clearTimeout_length, settle_length, hw.lenEq]
  · intro k e h
    simp only [mapGet_mapDelete] at h
    by_cases hk : k = key
    · simp [hk] at h
    · simp [hk] at h
      exact hw.keyLt k e h
  · intro k e h
    simp only [mapGet_mapDelete] at h
    by_cases hk : k = key
    · simp [hk] at h
    · simp [hk] at h
      obtain ⟨t1, he1, ht1, hp1⟩ := hw.entry k e h
      have hne : t1 ≠ t := by
        intro heq
        subst heq
        rw [ht] at ht1
        injection ht1 with a
        injection a with b
        exact hk b.symm
      refine ⟨t1, he1, ?_, ?_⟩
      · simp only []
        rw [clearTimeout_getElem?_ne _ _ _ hne]
        exact ht1
      · simp only []
        rw [settle_getElem?]
        simp [hne, hp1]
  · intro q tm h ha
    simp only [] at h
    by_cases hq : q = t
    · subst hq
      rw [clearTimeout_getElem?_armed _ _ _ ht rfl] at h
      injection h with h
      subst h
      simp at ha
    · rw [clearTimeout_getElem?_ne _ _ _ hq] at h
      have hm := hw.armedOk q tm h ha
      simp only [mapGet_mapDelete]
      by_cases hid : tm.id = key
      · exfalso
        rw [hid] at hm
        rw [hget] at hm
        injection hm with a
        injection a with b _
        injection b with c _
        exact hq c.symm
      · simp [hid, hm]

theorem inv_fireTimeout (w : World) (hw : Inv w) (t : Nat) : Inv (fireTimeout w t) := by
  unfold fireTimeout
  cases ht : w.timers[t]? with
  | none => simpa using hw
  | some tm =>
      by_cases ha : tm.state = TimerState.armed
      · simp only [ha, if_true]
        have hget := hw.armedOk t tm ht ha
        obtain ⟨t0, he0, ht0, hp⟩ := hw.entry tm.id _ hget
        have e0 : t = t0 := by injection he0 with _ b
        subst e0
        have htm : tm = { id := tm.id, promise := t, state := TimerState.armed } := by
          rw [ht] at ht0
          injection ht0
        have hprom : tm.promise = t := by rw [htm]
        have hlt := getElem?_lt_of_eq_some _ _ _ ht
        constructor
        · exact hw.posId
        · simp [settle_length, hw.lenEq]
        · intro k e h
          simp only [mapGet_mapDelete] at h
          by_cases hk : k = tm.id
          · simp [hk] at h
          · simp [hk] at h
            exact hw.keyLt k e h
        · intro k e h
          simp only [mapGet_mapDelete] at h
          by_cases hk : k = tm.id
          · simp [hk] at h
          · simp [hk] at h
            obtain ⟨t1, he1, ht1, hp1⟩ := hw.entry k e h
            have hne : t1 ≠ t := by
              intro heq
              subst heq
              rw [ht] at ht1
              injection ht1 with a
              rw [a] at hk
              exact hk rfl
            have hne' : ¬ t = t1 := fun x => hne x.symm
            refine ⟨t1, he1, ?_, ?_⟩
            · simp only []
              rw [List.getElem?_set]
              simp [hne', ht1]
            · simp only []
              rw [settle_getElem?, hprom]
              simp [hne, hp1]
        · intro q tm' h ha'
          simp only [] at h
          rw [List.getElem?_set] at h
          by_cases hq : t = q
          · subst hq
            simp [hlt] at h
            subst h
            simp at ha'
          · simp [hq] at h
            have hm := hw.armedOk q tm' h ha'
            simp only [mapGet_mapDelete]
            by_cases hid : tm'.id = tm.id
            · exfalso
              rw [hid] at hm
              rw [hget] at hm
              injection hm with a
              injection a with b _
              injection b with c _
              exact hq c
            · simp [hid, hm]
      · simpa [ha] using hw

/-! ## One line of a delivery -/

theorem keyOf_eq_some (v : JsVal) (key : Nat) (h : keyOf v = some key) :
    v = some (Json.num (Int.ofNat key)) := by
  unfold keyOf at h
  split at h
  · injection h with h; subst h; rfl
  · cases h

theorem keyOf_num (key : Nat) : keyOf (some (Json.num (Int.ofNat key))) = some key := rfl

theorem truthy_num (key : Nat) : truthy (some (Json.num (Int.ofNat key))) = true ↔ key ≠ 0 := by
  simp [truthy]

/-- A line that matches a pending entry. -/
theorem handleLine_match (parse : String → Except JsError Json) (w : World) (line : String)
    (response : Json) (key : Nat) (entry : Entry)
    (hb : ¬ jsTrim line = "") (hp : parse line = Except.ok response)
    (hid : getProp (some response) "id" = Except.ok (some (Json.num (Int.ofNat key))))
    (hk : key ≠ 0) (hg : mapGet w.pendingRequests key = some entry) :
    handleLine parse w line =
      Except.ok (callResolve { w with pendingRequests := mapDelete w.pendingRequests key }
        entry.resolve response) := by
  unfold handleLine
  have ht : truthy (some (Json.num (Int.ofNat key))) = true := (truthy_num key).2 hk
  have hh : mapHas w.pendingRequests key = true := by
    rw [mapHas_eq_isSome, hg]; rfl
  simp only [hb, if_false, hp, hid, hasKey, getKey, deleteKey, keyOf_num, ht, hh,
    Bool.and_self, if_true, hg]

/-- A decoded line whose `id` can be read and is not a live key. -/
theorem handleLine_nomatch (parse : String → Except JsError Json) (w : World) (line : String)
    (response : Json) (idv : JsVal)
    (hp : parse line = Except.ok response)
    (hid : getProp (some response) "id" = Except.ok idv)
    (hno : ∀ key, keyOf idv = some key → mapGet w.pendingRequests key = none) :
    handleLine parse w line = Except.ok w := by
  unfold handleLine
  by_cases hb : jsTrim line = ""
  · simp [hb]
  · have hh : hasKey w.pendingRequests idv = false := by
      unfold hasKey
      cases hk : keyOf idv with
      | none => rfl
      | some key =>
          simp only []
          rw [mapHas_eq_isSome, hno key hk]
          rfl
    simp [hb, hp, hid, hh]

/-- The three ways the loop body can go: nothing happens, an exception escapes, or
the line matches a pending entry, which is removed and resolved. -/
theorem handleLine_cases (parse : String → Except JsError Json) (w : World) (line : String) :
    handleLine parse w line = Except.ok w ∨
    (∃ e, handleLine parse w line = Except.error e) ∨
    (∃ response key entry, ¬ jsTrim line = "" ∧ parse line = Except.ok response ∧
      getProp (some response) "id" = Except.ok (some (Json.num (Int.ofNat key))) ∧
      key ≠ 0 ∧ mapGet w.pendingRequests key = some entry ∧
      handleLine parse w line =
        Except.ok (callResolve { w with pendingRequests := mapDelete w.pendingRequests key }
          entry.resolve response)) := by
  by_cases hb : jsTrim line = ""
  · left
    unfold handleLine
    simp [hb]
  · cases hp : parse line with
    | error e =>
        right; left
        refine ⟨e, ?_⟩
        unfold handleLine
        simp [hb, hp]
    | ok response =>
        cases hid : getProp (some response) "id" with
        | error e =>
            right; left
            refine ⟨e, ?_⟩
            unfold handleLine
            simp [hb, hp, hid]
        | ok idv =>
            cases hk : keyOf idv with
            | none =>
                left
                apply handleLine_nomatch parse w line response idv hp hid
                intro key hkey
                rw [hk] at hkey
                cases hkey
            | some key =>
                have hv := keyOf_eq_some idv key hk
                subst hv
                cases hg : mapGet w.pendingRequests key with
                | none =>
                    left
                    apply handleLine_nomatch parse w line response _ hp hid
                    intro key' hkey
                    rw [hk] at hkey
                    injection hkey with hkey
                    subst hkey
                    exact hg
                | some entry =>
                    by_cases h0 : key = 0
                    · left
                      subst h0
                      unfold handleLine
                      simp [hb, hp, hid, keyOf, truthy]
                    · right; right
                      exact ⟨response, key, entry, hb, rfl, hid, h0, hg,
                        handleLine_match parse w line response key entry hb hp hid h0 hg⟩

theorem inv_handleLine (parse : String → Except JsError Json) (w w' : World) (line : String)
    (hw : Inv w) (h : handleLine parse w line = Except.ok w') : Inv w' := by
  rcases handleLine_cases parse w line with h0 | ⟨e, he⟩ | ⟨response, key, entry, _, _, _, _, hg, hr⟩
  · rw [h0] at h
    injection h with h
    subst h
    exact hw
  · rw [he] at h
    cases h
  · rw [hr] at h
    injection h with h
    subst h
    obtain ⟨t, he, heq, _⟩ := resolve_step w hw key entry response hg
    rw [heq]
    subst he
    exact inv_resolve w hw key t response hg

theorem inv_handleLines (parse : String → Except JsError Json) (lines : List String) :
    ∀ w, Inv w → Inv (handleLines parse w lines).1 := by
  induction lines with
  | nil => intro w hw; simpa [handleLines] using hw
  | cons line rest ih =>
      intro w hw
      unfold handleLines
      cases h : handleLine parse w line with
      | error e => simpa using hw
      | ok w' => exact ih w' (inv_handleLine parse w w' line hw h)

theorem inv_step (parse : String → Except JsError Json) (stringify : Json → String)
    (w : World) (ev : Event) (hw : Inv w) : Inv (step parse stringify w ev) := by
  cases ev with
  | send method params => exact inv_sendRequest stringify w method params hw
  | data chunk => exact inv_handleLines parse _ w hw
  | timeout t => exact inv_fireTimeout w hw t

theorem inv_run (parse : String → Except JsError Json) (stringify : Json → String)
    (evs : List Event) : ∀ w, Inv w → Inv (run parse stringify w evs) := by
  induction evs with
  | nil => intro w hw; simpa [run] using hw
  | cons ev rest ih => intro w hw; exact ih _ (inv_step parse stringify w ev hw)

theorem inv_of_reachable (parse : String → Except JsError Json) (stringify : Json → String)
    (w : World) (h : Reachable parse stringify w) : Inv w := by
  obtain ⟨evs, rfl⟩ := h
  exact inv_run parse stringify evs _ inv_fresh

theorem run_append (parse : String → Except JsError Json) (stringify : Json → String)
    (evs evs' : List Event) :
    ∀ w, run parse stringify w (evs ++ evs') =
      run parse stringify (run parse stringify w evs) evs' := by
  induction evs with
  | nil => intro w; rfl
  | cons ev rest ih => intro w; simp [run, ih]

theorem reachable_run (parse : String → Except JsError Json) (stringify : Json → String)
    (w : World) (h : Reachable parse stringify w) (evs : List Event) :
    Reachable parse stringify (run parse stringify w evs) := by
  obtain ⟨evs0, rfl⟩ := h
  exact ⟨evs0 ++ evs, run_append parse stringify evs0 evs _⟩

/-- The effect of the loop body on a well-formed state. -/
theorem handleLine_effect (parse : String → Except JsError Json) (w w' : World)
    (line : String) (hw : Inv w) (h : handleLine parse w line = Except.ok w') :
    w' = w ∨
    ∃ response key t, ¬ jsTrim line = "" ∧ parse line = Except.ok response ∧
      getProp (some response) "id" = Except.ok (some (Json.num (Int.ofNat key))) ∧
      mapGet w.pendingRequests key =
        some { resolve := ResolveFn.clearing t t, reject := t } ∧
      w.timers[t]? = some { id := key, promise := t, state := TimerState.armed } ∧
      w.promises[t]? = some { state := PromiseState.pending, settleCalls := 0 } ∧
      w' = { w with
             pendingRequests := mapDelete w.pendingRequests key,
             timers := clearTimeout w.timers t,
             promises := settle w.promises t (PromiseState.fulfilled response) } := by
  rcases handleLine_cases parse w line with
    h0 | ⟨e, he⟩ | ⟨response, key, entry, hb, hp, hid, _, hg, hr⟩
  · rw [h0] at h
    injection h with h
    exact Or.inl h.symm
  · rw [he] at h
    cases h
  · right
    rw [hr] at h
    injection h with h
    obtain ⟨t, he, heq, ht, hpr, _, _⟩ := resolve_step w hw key entry response hg
    subst he
    exact ⟨response, key, t, hb, hp, hid, hg, ht, hpr, by rw [← h, heq]⟩

theorem handleLine_requestId (parse : String → Except JsError Json) (w w' : World)
    (line : String) (hw : Inv w) (h : handleLine parse w line = Except.ok w') :
    w'.requestId = w.requestId ∧ w'.stdin = w.stdin := by
  rcases handleLine_effect parse w w' line hw h with h0 | ⟨_, _, _, _, _, _, _, _, _, h1⟩
  · subst h0; exact ⟨rfl, rfl⟩
  · subst h1; exact ⟨rfl, rfl⟩

theorem handleLines_requestId (parse : String → Except JsError Json) (lines : List String) :
    ∀ w, Inv w → (handleLines parse w lines).1.requestId = w.requestId ∧
      (handleLines parse w lines).1.stdin = w.stdin := by
  induction lines with
  | nil => intro w _; simp [handleLines]
  | cons line rest ih =>
      intro w hw
      unfold handleLines
      cases h : handleLine parse w line with
      | error e => simp
      | ok w' =>
          have h1 := handleLine_requestId parse w w' line hw h
          have h2 := ih w' (inv_handleLine parse w w' line hw h)
          simp only []
          exact ⟨h2.1.trans h1.1, h2.2.trans h1.2⟩

/-! ## Settled requests stay settled -/

theorem quiet_handleLine (parse : String → Except JsError Json) (w w' : World)
    (line : String) (p : Nat) (hw : Inv w) (hq : Quiet w p)
    (h : handleLine parse w line = Except.ok w') :
    Quiet w' p ∧ w'.promises[p]? = w.promises[p]? ∧ w'.timers[p]? = w.timers[p]? := by
  rcases handleLine_effect parse w w' line hw h with
    h0 | ⟨response, key, t, _, _, _, _, ht, _, h1⟩
  · subst h0; exact ⟨hq, rfl, rfl⟩
  · obtain ⟨tm, htm, hna⟩ := hq
    have hne : p ≠ t := by
      intro heq
      subst heq
      rw [ht] at htm
      injection htm with a
      subst a
      exact hna rfl
    subst h1
    have e1 : (clearTimeout w.timers t)[p]? = w.timers[p]? :=
      clearTimeout_getElem?_ne _ _ _ hne
    refine ⟨⟨tm, ?_, hna⟩, ?_, e1⟩
    · simp only []
      rw [e1, htm]
    · simp only []
      rw [settle_getElem?]
      simp [hne]

theorem quiet_handleLines (parse : String → Except JsError Json) (lines : List String)
    (p : Nat) :
    ∀ w, Inv w → Quiet w p →
      Quiet (handleLines parse w lines).1 p ∧
      (handleLines parse w lines).1.promises[p]? = w.promises[p]? ∧
      (handleLines parse w lines).1.timers[p]? = w.timers[p]? := by
  induction lines with
  | nil => intro w _ hq; exact ⟨hq, rfl, rfl⟩
  | cons line rest ih =>
      intro w hw hq
      unfold handleLines
      cases h : handleLine parse w line with
      | error e => exact ⟨hq, rfl, rfl⟩
      | ok w' =>
          have h1 := quiet_handleLine parse w w' line p hw hq h
          have h2 := ih w' (inv_handleLine parse w w' line hw h) h1.1
          simp only []
          exact ⟨h2.1, h2.2.1.trans h1.2.1, h2.2.2.trans h1.2.2⟩

theorem quiet_step (parse : String → Except JsError Json) (stringify : Json → String)
    (w : World) (ev : Event) (p : Nat) (hw : Inv w) (hq : Quiet w p) :
    Quiet (step parse stringify w ev) p ∧
    (step parse stringify w ev).promises[p]? = w.promises[p]? ∧
    (step parse stringify w ev).timers[p]? = w.timers[p]? := by
  cases ev with
  | send method params =>
      obtain ⟨tm, htm, hna⟩ := hq
      have hlt := getElem?_lt_of_eq_some _ _ _ htm
      have hlt' : p < w.promises.length := by rw [← hw.lenEq]; exact hlt
      have e1 : (sendRequest stringify w method params).1.timers[p]? = w.timers[p]? := by
        simp [sendRequest, List.getElem?_append_left hlt]
      have e2 : (sendRequest stringify w method params).1.promises[p]? = w.promises[p]? := by
        simp [sendRequest, List.getElem?_append_left hlt']
      exact ⟨⟨tm, by rw [← htm]; exact e1, hna⟩, e2, e1⟩
  | data chunk => exact quiet_handleLines parse _ p w hw hq
  | timeout t =>
      simp only [step]
      unfold fireTimeout
      cases ht : w.timers[t]? with
      | none => exact ⟨hq, rfl, rfl⟩
      | some tm' =>
          by_cases ha : tm'.state = TimerState.armed
          · simp only [ha, if_true]
            obtain ⟨tm, htm, hna⟩ := hq
            have hne : t ≠ p := by
              intro heq
              subst heq
              rw [ht] at htm
              injection htm with a
              subst a
              exact hna ha
            have hget := hw.armedOk t tm' ht ha
            obtain ⟨t0, he0, ht0, _⟩ := hw.entry tm'.id _ hget
            have e0 : t = t0 := by injection he0 with _ b
            subst e0
            have hprom : tm'.promise = t := by
              rw [ht] at ht0
              injection ht0 with a
              rw [a]
            have e1 : (w.timers.set t { tm' with state := TimerState.fired })[p]? =
                w.timers[p]? := by
              rw [List.getElem?_set]
              simp [hne]
            refine ⟨⟨tm, ?_, hna⟩, ?_, e1⟩
            · simp only []
              rw [e1, htm]
            · have hne' : ¬ p = t := fun x => hne x.symm
              rw [settle_getElem?, hprom]
              simp only [hne', if_false]
          · simpa [ha] using hq

theorem quiet_run (parse : String → Except JsError Json) (stringify : Json → String)
    (evs : List Event) (p : Nat) :
    ∀ w, Inv w → Quiet w p →
      (run parse stringify w evs).promises[p]? = w.promises[p]? ∧
      (run parse stringify w evs).timers[p]? = w.timers[p]? := by
  induction evs with
  | nil => intro w _ _; exact ⟨rfl, rfl⟩
  | cons ev rest ih =>
      intro w hw hq
      have h1 := quiet_step parse stringify w ev p hw hq
      have h2 := ih _ (inv_step parse stringify w ev hw) h1.1
      exact ⟨h2.1.trans h1.2.1, h2.2.trans h1.2.2⟩

/-! ## Keys that are no longer live -/

theorem dead_handleLines (parse : String → Except JsError Json) (lines : List String)
    (k : Nat) :
    ∀ w, Inv w → mapGet w.pendingRequests k = none →
      mapGet (handleLines parse w lines).1.pendingRequests k = none := by
  induction lines with
  | nil => intro w _ h; exact h
  | cons line rest ih =>
      intro w hw hk
      unfold handleLines
      cases h : handleLine parse w line with
      | error e => exact hk
      | ok w' =>
          apply ih w' (inv_handleLine parse w w' line hw h)
          rcases handleLine_effect parse w w' line hw h with
            h0 | ⟨_, key, _, _, _, _, _, _, _, h1⟩
          · subst h0; exact hk
          · subst h1
            simp only [mapGet_mapDelete]
            by_cases hkk : k = key <;> simp [hkk, hk]

theorem dead_step (parse : String → Except JsError Json) (stringify : Json → String)
    (w : World) (ev : Event) (k : Nat) (hw : Inv w) (hlt : k < w.requestId)
    (hk : mapGet w.pendingRequests k = none) :
    k < (step parse stringify w ev).requestId ∧
    mapGet (step parse stringify w ev).pendingRequests k = none := by
  cases ev with
  | send method params =>
      constructor
      · simp [step, sendRequest]; omega
      · simp only [step]
        rw [sendRequest_mapGet]
        have hne : ¬ k = w.requestId := by omega
        simp [hne, hk]
  | data chunk =>
      constructor
      · simp only [step, handleResponse]
        rw [(handleLines_requestId parse _ w hw).1]
        exact hlt
      · exact dead_handleLines parse _ k w hw hk
  | timeout t =>
      simp only [step]
      unfold fireTimeout
      cases ht : w.timers[t]? with
      | none => exact ⟨hlt, hk⟩
      | some tm =>
          by_cases ha : tm.state = TimerState.armed
          · simp only [ha, if_true]
            refine ⟨hlt, ?_⟩
            simp only [mapGet_mapDelete]
            by_cases hkk : k = tm.id <;> simp [hkk, hk]
          · simp only [ha, if_false]
            exact ⟨hlt, hk⟩

theorem dead_run (parse : String → Except JsError Json) (stringify : Json → String)
    (evs : List Event) (k : Nat) :
    ∀ w, Inv w → k < w.requestId → mapGet w.pendingRequests k = none →
      mapGet (run parse stringify w evs).pendingRequests k = none := by
  induction evs with
  | nil => intro w _ _ h; exact h
  | cons ev rest ih =>
      intro w hw hlt hk
      have h1 := dead_step parse stringify w ev k hw hlt hk
      exact ih _ (inv_step parse stringify w ev hw) h1.1 h1.2

/-! ## The loop over the lines of a delivery -/

theorem handleLines_cons_ok (parse : String → Except JsError Json) (w w' : World)
    (line : String) (rest : List String) (h : handleLine parse w line = Except.ok w') :
    handleLines parse w (line :: rest) = handleLines parse w' rest := by
  simp [handleLines, h]

theorem handleLines_cons_error (parse : String → Except JsError Json) (w : World)
    (line : String) (rest : List String) (e : JsError)
    (h : handleLine parse w line = Except.error e) :
    handleLines parse w (line :: rest) = (w, some e) := by
  simp [handleLines, h]

theorem handleLines_append (parse : String → Except JsError Json) (pre post : List String) :
    ∀ w, (handleLines parse w pre).2 = none →
      handleLines parse w (pre ++ post) = handleLines parse (handleLines parse w pre).1 post := by
  induction pre with
  | nil => intro w _; rfl
  | cons line rest ih =>
      intro w h
      simp only [List.cons_append]
      cases hl : handleLine parse w line with
      | error e =>
          rw [handleLines_cons_error parse w line rest e hl] at h
          cases h
      | ok w' =>
          rw [handleLines_cons_ok parse w w' line rest hl] at h ⊢
          rw [handleLines_cons_ok parse w w' line (rest ++ post) hl]
          exact ih w' h

theorem handleLines_stop (parse : String → Except JsError Json) (w : World)
    (pre post : List String) (bad : String) (e : JsError)
    (hpre : (handleLines parse w pre).2 = none)
    (hbad : handleLine parse (handleLines parse w pre).1 bad = Except.error e) :
    handleLines parse w (pre ++ bad :: post) = ((handleLines parse w pre).1, some e) := by
  rw [handleLines_append parse pre (bad :: post) w hpre]
  simp [handleLines, hbad]

/-- The loop processes a prefix of the lines and stops at the first exception. -/
theorem handleLines_prefix (parse : String → Except JsError Json) (lines : List String) :
    ∀ w, ∃ pre rest, lines = pre ++ rest ∧ (handleLines parse w pre).2 = none ∧
      (handleLines parse w lines).1 = (handleLines parse w pre).1 ∧
      (rest = [] ∨ ∃ bad rest' e, rest = bad :: rest' ∧
        handleLine parse (handleLines parse w pre).1 bad = Except.error e) := by
  induction lines with
  | nil => intro w; exact ⟨[], [], rfl, rfl, rfl, Or.inl rfl⟩
  | cons line rest ih =>
      intro w
      cases hl : handleLine parse w line with
      | error e =>
          refine ⟨[], line :: rest, rfl, rfl, ?_, Or.inr ⟨line, rest, e, rfl, hl⟩⟩
          simp [handleLines, hl]
      | ok w' =>
          obtain ⟨pre, rest', h1, h2, h3, h4⟩ := ih w'
          refine ⟨line :: pre, rest', by rw [h1]; rfl, ?_, ?_, ?_⟩
          · simpa [handleLines, hl] using h2
          · simpa [handleLines, hl] using h3
          · simpa [handleLines, hl] using h4

/-- A line that is blank or decodes to a JSON object never raises. -/
theorem handleLine_obj_ok (parse : String → Except JsError Json) (w : World) (line : String)
    (h : ¬ jsTrim line = "" → ∃ fields, parse line = Except.ok (Json.obj fields)) :
    ∃ w', handleLine parse w line = Except.ok w' := by
  rcases handleLine_cases parse w line with h0 | ⟨e, he⟩ | ⟨_, _, _, _, _, _, _, _, hr⟩
  · exact ⟨w, h0⟩
  · exfalso
    by_cases hb : jsTrim line = ""
    · unfold handleLine at he
      simp [hb] at he
    · obtain ⟨fields, hp⟩ := h hb
      cases hk : keyOf (lookupField "id" fields) with
      | none =>
          have := handleLine_nomatch parse w line (Json.obj fields) _ hp rfl
            (fun key hkey => by rw [hk] at hkey; cases hkey)
          rw [this] at he
          cases he
      | some key =>
          cases hg : mapGet w.pendingRequests key with
          | none =>
              have := handleLine_nomatch parse w line (Json.obj fields) _ hp rfl
                (fun key' hkey => by
                  rw [hk] at hkey
                  injection hkey with hkey
                  subst hkey
                  exact hg)
              rw [this] at he
              cases he
          | some entry =>
              have hv := keyOf_eq_some _ key hk
              by_cases h0 : key = 0
              · subst h0
                unfold handleLine at he
                simp [hb, hp, getProp, hv, keyOf, truthy] at he
              · have := handleLine_match parse w line (Json.obj fields) key entry hb hp
                  (by simp [getProp, hv]) h0 hg
                rw [this] at he
                cases he
  · exact ⟨_, hr⟩

theorem handleLines_obj_ok (parse : String → Except JsError Json) (lines : List String) :
    ∀ w, (∀ line ∈ lines, ¬ jsTrim line = "" →
        ∃ fields, parse line = Except.ok (Json.obj fields)) →
      (handleLines parse w lines).2 = none := by
  induction lines with
  | nil => intro w _; rfl
  | cons line rest ih =>
      intro w h
      obtain ⟨w', hl⟩ := handleLine_obj_ok parse w line (h line (List.mem_cons_self _ _))
      unfold handleLines
      simp only [hl]
      exact ih w' (fun l hl' => h l (List.mem_cons_of_mem _ hl'))

/-! ## Entries and promises a line does not touch -/

theorem frame_handleLine (parse : String → Except JsError Json) (w w' : World)
    (line : String) (k : Nat) (e : Entry) (hw : Inv w)
    (h : handleLine parse w line = Except.ok w')
    (hg : mapGet w.pendingRequests k = some e)
    (hno : ∀ response, parse line = Except.ok response →
      getProp (some response) "id" ≠ Except.ok (some (Json.num (Int.ofNat k)))) :
    mapGet w'.pendingRequests k = some e := by
  rcases handleLine_effect parse w w' line hw h with
    h0 | ⟨response, key, _, _, hp, hid, _, _, _, h1⟩
  · subst h0; exact hg
  · subst h1
    simp only [mapGet_mapDelete]
    have hne : ¬ k = key := by
      intro heq
      subst heq
      exact hno response hp hid
    simp [hne, hg]

theorem frame_handleLines (parse : String → Except JsError Json) (lines : List String)
    (k : Nat) (e : Entry) :
    ∀ w, Inv w → mapGet w.pendingRequests k = some e →
      (∀ line ∈ lines, ∀ response, parse line = Except.ok response →
        getProp (some response) "id" ≠ Except.ok (some (Json.num (Int.ofNat k)))) →
      mapGet (handleLines parse w lines).1.pendingRequests k = some e := by
  induction lines with
  | nil => intro w _ hg _; exact hg
  | cons line rest ih =>
      intro w hw hg hno
      cases hl : handleLine parse w line with
      | error err =>
          rw [handleLines_cons_error parse w line rest err hl]
          exact hg
      | ok w' =>
          rw [handleLines_cons_ok parse w w' line rest hl]
          apply ih w' (inv_handleLine parse w w' line hw hl)
          · exact frame_handleLine parse w w' line k e hw hl hg
              (hno line (List.mem_cons_self _ _))
          · exact fun l hl' => hno l (List.mem_cons_of_mem _ hl')

theorem awaited_settle_fulfilled (ps : List PromiseCell) (t p : Nat) (v : Json) (e : JsError)
    (ht : ps[t]? = some { state := PromiseState.pending, settleCalls := 0 })
    (h : awaited (settle ps t (PromiseState.fulfilled v)) p = some (Except.error e)) :
    awaited ps p = some (Except.error e) := by
  unfold awaited at h ⊢
  rw [settle_getElem?] at h
  by_cases hpt : p = t
  · subst hpt
    simp [ht] at h
  · simpa [hpt] using h

theorem notRejected_handleLines (parse : String → Except JsError Json) (lines : List String)
    (p : Nat) (e : JsError) :
    ∀ w, Inv w → awaited (handleLines parse w lines).1.promises p = some (Except.error e) →
      awaited w.promises p = some (Except.error e) := by
  induction lines with
  | nil => intro w _ h; exact h
  | cons line rest ih =>
      intro w hw h
      cases hl : handleLine parse w line with
      | error err =>
          rw [handleLines_cons_error parse w line rest err hl] at h
          exact h
      | ok w' =>
          rw [handleLines_cons_ok parse w w' line rest hl] at h
          have h' := ih w' (inv_handleLine parse w w' line hw hl) h
          rcases handleLine_effect parse w w' line hw hl with
            h0 | ⟨response, key, t, _, _, _, _, _, hpr, h1⟩
          · subst h0; exact h'
          · subst h1
            exact awaited_settle_fulfilled w.promises t p response e hpr h'

/-- A line whose `id` is a live key, on a well-formed state. -/
theorem resolve_line (parse : String → Except JsError Json) (w : World) (hw : Inv w)
    (line : String) (response : Json) (key : Nat) (entry : Entry)
    (hb : ¬ jsTrim line = "") (hp : parse line = Except.ok response)
    (hid : getProp (some response) "id" = Except.ok (some (Json.num (Int.ofNat key))))
    (hg : mapGet w.pendingRequests key = some entry) :
    ∃ t w', entry = { resolve := ResolveFn.clearing t t, reject := t } ∧
      handleLine parse w line = Except.ok w' ∧ Inv w' ∧
      w.timers[t]? = some { id := key, promise := t, state := TimerState.armed } ∧
      w.promises[t]? = some { state := PromiseState.pending, settleCalls := 0 } ∧
      w'.timers[t]? = some { id := key, promise := t, state := TimerState.cleared } ∧
      w'.promises[t]? =
        some { state := PromiseState.fulfilled response, settleCalls := 1 } ∧
      mapGet w'.pendingRequests key = none ∧ w'.requestId = w.requestId := by
  have hk : key ≠ 0 := by
    have := (hw.keyLt key entry hg).1
    omega
  have hl := handleLine_match parse w line response key entry hb hp hid hk hg
  obtain ⟨t, he, heq, ht, hpr, hc, hs⟩ := resolve_step w hw key entry response hg
  rw [heq] at hl
  refine ⟨t, _, he, hl, ?_, ht, hpr, hc, hs, ?_, rfl⟩
  · subst he
    exact inv_resolve w hw key t response hg
  · simp [mapGet_mapDelete]

theorem handleLines_singleton_ok (parse : String → Except JsError Json) (w w' : World)
    (line : String) (h : handleLine parse w line = Except.ok w') :
    handleLines parse w [line] = (w', none) := by
  simp [handleLines, h]

/-! ## Claims about `Context7Client` -/

/-- C1. In every reachable state, for every delivery whose non-blank lines all decode
as JSON objects, a line whose `id` is the key of an entry still pending when the
line is reached finds the entry's alarm armed and its promise untouched; processing
the line clears the alarm, removes the entry and fulfils the promise with the
decoded message, by the one and only settle call made on it; this is still so at
the end of the delivery and after any later events, so no timeout failure reaches
the request. -/
theorem handleResponse_resolves_pending (parse : String → Except JsError Json)
    (stringify : Json → String) (w : World) (data : String) (pre post : List String)
    (line : String) (fields : List (String × Json)) (key : Nat) (entry : Entry)
    (hw : Reachable parse stringify w)
    (hobj : ∀ l ∈ splitLines (jsTrim data), ¬ jsTrim l = "" →
      ∃ fs, parse l = Except.ok (Json.obj fs))
    (hsplit : splitLines (jsTrim data) = pre ++ line :: post)
    (hline : ¬ jsTrim line = "")
    (hparse : parse line = Except.ok (Json.obj fields))
    (hid : lookupField "id" fields = some (Json.num (Int.ofNat key)))
    (hpend : mapGet (handleLines parse w pre).1.pendingRequests key = some entry) :
    ∃ t p, entry = { resolve := ResolveFn.clearing t p, reject := p } ∧
      (handleLines parse w pre).1.timers[t]? =
        some { id := key, promise := p, state := TimerState.armed } ∧
      (handleLines parse w pre).1.promises[p]? =
        some { state := PromiseState.pending, settleCalls := 0 } ∧
      handleLine parse (handleLines parse w pre).1 line =
        Except.ok (handleLines parse w (pre ++ [line])).1 ∧
      mapGet (handleLines parse w (pre ++ [line])).1.pendingRequests key = none ∧
      (handleLines parse w (pre ++ [line])).1.timers[t]? =
        some { id := key, promise := p, state := TimerState.cleared } ∧
      (handleLines parse w (pre ++ [line])).1.promises[p]? =
        some { state := PromiseState.fulfilled (Json.obj fields), settleCalls := 1 } ∧
      ∀ evs,
        mapGet (run parse stringify (handleResponse parse w data) evs).pendingRequests key =
          none ∧
        (run parse stringify (handleResponse parse w data) evs).timers[t]? =
          some { id := key, promise := p, state := TimerState.cleared } ∧
        (run parse stringify (handleResponse parse w data) evs).promises[p]? =
          some { state := PromiseState.fulfilled (Json.obj fields), settleCalls := 1 } := by
  have hinv := inv_of_reachable parse stringify w hw
  have hall : ∀ l ∈ pre ++ line :: post, ¬ jsTrim l = "" →
      ∃ fs, parse l = Except.ok (Json.obj fs) := by
    rw [← hsplit]; exact hobj
  have hpreOk : (handleLines parse w pre).2 = none :=
    handleLines_obj_ok parse pre w (fun l hl => hall l (List.mem_append_left _ hl))
  have hinv0 : Inv (handleLines parse w pre).1 := inv_handleLines parse pre w hinv
  obtain ⟨t, w1, he, hl, hinv1, ht, hpr, hc, hs, hdead, hrid⟩ :=
    resolve_line parse (handleLines parse w pre).1 hinv0 line (Json.obj fields) key entry
      hline hparse (by simp [getProp, hid]) hpend
  have h1 : (handleLines parse w (pre ++ [line])) = (w1, none) := by
    rw [handleLines_append parse pre [line] w hpreOk]
    exact handleLines_singleton_ok parse _ w1 line hl
  have hfin : handleResponse parse w data = (handleLines parse w1 post).1 := by
    unfold handleResponse
    rw [hsplit]
    have : pre ++ line :: post = (pre ++ [line]) ++ post := by simp
    rw [this, handleLines_append parse (pre ++ [line]) post w (by rw [h1])]
    rw [h1]
  have hq1 : Quiet w1 t := ⟨_, hc, by simp⟩
  have hqf := quiet_handleLines parse post t w1 hinv1 hq1
  have hinvf : Inv (handleLines parse w1 post).1 := inv_handleLines parse post w1 hinv1
  have hltk : key < w1.requestId := by
    rw [hrid]
    exact (hinv0.keyLt key entry hpend).2
  have hdeadf := dead_handleLines parse post key w1 hinv1 hdead
  have hltf : key < (handleLines parse w1 post).1.requestId := by
    rw [(handleLines_requestId parse post w1 hinv1).1]
    exact hltk
  refine ⟨t, t, he, ht, hpr, ?_, ?_, ?_, ?_, ?_⟩
  · rw [h1]; exact hl
  · rw [h1]; exact hdead
  · rw [h1]; exact hc
  · rw [h1]; exact hs
  · intro evs
    rw [hfin]
    have hr := quiet_run parse stringify evs t _ hinvf hqf.1
    refine ⟨dead_run parse stringify evs key _ hinvf hltf hdeadf, ?_, ?_⟩
    · rw [hr.2, hqf.2.2]; exact hc
    · rw [hr.1, hqf.2.1]; exact hs

/-- C1, at the first request of a fresh client and the delivery of `sampleLine1`. -/
theorem handleResponse_resolves_pending_witness :
    ∃ t p, ({ resolve := ResolveFn.clearing 0 0, reject := 0 } : Entry) =
        { resolve := ResolveFn.clearing t p, reject := p } ∧
      (handleLines sampleParse
        (sendRequest sampleStringify World.fresh "tools/list" none).1 []).1.timers[t]? =
        some { id := 1, promise := p, state := TimerState.armed } ∧
      (handleLines sampleParse
        (sendRequest sampleStringify World.fresh "tools/list" none).1 []).1.promises[p]? =
        some { state := PromiseState.pending, settleCalls := 0 } ∧
      handleLine sampleParse (handleLines sampleParse
        (sendRequest sampleStringify World.fresh "tools/list" none).1 []).1 sampleLine1 =
        Except.ok (handleLines sampleParse
          (sendRequest sampleStringify World.fresh "tools/list" none).1
          ([] ++ [sampleLine1])).1 ∧
      mapGet (handleLines sampleParse
        (sendRequest sampleStringify World.fresh "tools/list" none).1
        ([] ++ [sampleLine1])).1.pendingRequests 1 = none ∧
      (handleLines sampleParse
        (sendRequest sampleStringify World.fresh "tools/list" none).1
        ([] ++ [sampleLine1])).1.timers[t]? =
        some { id := 1, promise := p, state := TimerState.cleared } ∧
      (handleLines sampleParse
        (sendRequest sampleStringify World.fresh "tools/list" none).1
        ([] ++ [sampleLine1])).1.promises[p]? =
        some { state := PromiseState.fulfilled sampleMsg1, settleCalls := 1 } ∧
      ∀ evs,
        mapGet (run sampleParse sampleStringify (handleResponse sampleParse
          (sendRequest sampleStringify World.fresh "tools/list" none).1
          (sampleLine1 ++ "\n")) evs).pendingRequests 1 = none ∧
        (run sampleParse sampleStringify (handleResponse sampleParse
          (sendRequest sampleStringify World.fresh "tools/list" none).1
          (sampleLine1 ++ "\n")) evs).timers[t]? =
          some { id := 1, promise := p, state := TimerState.cleared } ∧
        (run sampleParse sampleStringify (handleResponse sampleParse
          (sendRequest sampleStringify World.fresh "tools/list" none).1
          (sampleLine1 ++ "\n")) evs).promises[p]? =
          some { state := PromiseState.fulfilled sampleMsg1, settleCalls := 1 } :=
  handleResponse_resolves_pending sampleParse sampleStringify
    (sendRequest sampleStringify World.fresh "tools/list" none).1 (sampleLine1 ++ "\n")
    [] [] sampleLine1
    [("jsonrpc", Json.str "2.0"), ("id", Json.num 1), ("result", Json.obj [])] 1
    { resolve := ResolveFn.clearing 0 0, reject := 0 }
    ⟨[Event.send "tools/list" none], rfl⟩
    (by
      intro l hl _
      have hs : splitLines (jsTrim (sampleLine1 ++ "\n")) = [sampleLine1] := by decide
      rw [hs] at hl
      simp at hl
      subst hl
      exact ⟨_, rfl⟩)
    (by decide) (by decide) rfl rfl rfl

theorem handleLine_parse_error (parse : String → Except JsError Json) (w : World)
    (line : String) (e : JsError) (hb : ¬ jsTrim line = "")
    (hp : parse line = Except.error e) : handleLine parse w line = Except.error e := by
  unfold handleLine
  simp [hb, hp]

theorem getProp_id_obj_ne (fs : List (String × Json)) (a b : Nat) (hab : a ≠ b)
    (hid : lookupField "id" fs = some (Json.num (Int.ofNat a))) :
    getProp (some (Json.obj fs)) "id" ≠ Except.ok (some (Json.num (Int.ofNat b))) := by
  intro h
  simp only [getProp, hid] at h
  injection h with h
  injection h with h
  injection h with h
  injection h with h
  exact hab h

/-- C2, refuted as stated: with requests 1 and 2 pending, the delivery of an
undecodable line followed by the valid responses to 1 and to 2 resolves neither:
the pending map is unchanged and both promises are still pending. -/
theorem handleResponse_malformed_first_counterexample :
    splitLines (jsTrim malformedFirst) = ["oops", sampleLine1, sampleLine2] ∧
    sampleParse "oops" = Except.error JsError.syntaxError ∧
    sampleParse sampleLine1 = Except.ok sampleMsg1 ∧
    sampleParse sampleLine2 = Except.ok sampleMsg2 ∧
    mapHas twoPending.pendingRequests 1 = true ∧
    mapHas twoPending.pendingRequests 2 = true ∧
    (handleResponse sampleParse twoPending malformedFirst).pendingRequests =
      twoPending.pendingRequests ∧
    awaited (handleResponse sampleParse twoPending malformedFirst).promises 0 = none ∧
    awaited (handleResponse sampleParse twoPending malformedFirst).promises 1 = none :=
  ⟨by decide, rfl, rfl, rfl, rfl, rfl, by decide, rfl, rfl⟩

/-- C2, amended. In a delivery, the loop of `handleResponse` ends at the first
undecodable non-blank line: the state after the delivery is the state after the
lines before it. With two distinct pending requests `a` and `b`, valid response
lines `la` and `lb` for them and an undecodable line `bad`: when `bad` comes last
both requests are resolved with their own responses; when `bad` stands between,
`a` is resolved and `b` is still pending and untouched; when `bad` comes first the
delivery changes nothing. -/
theorem handleResponse_stops_at_malformed_line (parse : String → Except JsError Json)
    (stringify : Json → String) (w : World) (la lb bad : String)
    (fa fb : List (String × Json)) (a b : Nat) (ea eb : Entry) (err : JsError)
    (hw : Reachable parse stringify w) (hab : a ≠ b)
    (hla : ¬ jsTrim la = "") (hlb : ¬ jsTrim lb = "") (hbad : ¬ jsTrim bad = "")
    (hpa : parse la = Except.ok (Json.obj fa))
    (hida : lookupField "id" fa = some (Json.num (Int.ofNat a)))
    (hpb : parse lb = Except.ok (Json.obj fb))
    (hidb : lookupField "id" fb = some (Json.num (Int.ofNat b)))
    (hperr : parse bad = Except.error err)
    (hga : mapGet w.pendingRequests a = some ea)
    (hgb : mapGet w.pendingRequests b = some eb) :
    (∀ data pre post, splitLines (jsTrim data) = pre ++ bad :: post →
      (handleLines parse w pre).2 = none →
      handleResponse parse w data = (handleLines parse w pre).1) ∧
    (∀ data, splitLines (jsTrim data) = [la, lb, bad] →
      mapGet (handleResponse parse w data).pendingRequests a = none ∧
      (handleResponse parse w data).promises[ea.reject]? =
        some { state := PromiseState.fulfilled (Json.obj fa), settleCalls := 1 } ∧
      mapGet (handleResponse parse w data).pendingRequests b = none ∧
      (handleResponse parse w data).promises[eb.reject]? =
        some { state := PromiseState.fulfilled (Json.obj fb), settleCalls := 1 }) ∧
    (∀ data, splitLines (jsTrim data) = [la, bad, lb] →
      mapGet (handleResponse parse w data).pendingRequests a = none ∧
      (handleResponse parse w data).promises[ea.reject]? =
        some { state := PromiseState.fulfilled (Json.obj fa), settleCalls := 1 } ∧
      mapGet (handleResponse parse w data).pendingRequests b = some eb ∧
      (handleResponse parse w data).promises[eb.reject]? =
        some { state := PromiseState.pending, settleCalls := 0 }) ∧
    (∀ data, splitLines (jsTrim data) = [bad, la, lb] →
      handleResponse parse w data = w) := by
  have hinv := inv_of_reachable parse stringify w hw
  have hgpa : getProp (some (Json.obj fa)) "id" = Except.ok (some (Json.num (Int.ofNat a))) := by
    simp [getProp, hida]
  have hgpb : getProp (some (Json.obj fb)) "id" = Except.ok (some (Json.num (Int.ofNat b))) := by
    simp [getProp, hidb]
  obtain ⟨ta, w1, hea, hl1, hinv1, _, _, hc1, hs1, hd1, _⟩ :=
    resolve_line parse w hinv la (Json.obj fa) a ea hla hpa hgpa hga
  have hgb1 : mapGet w1.pendingRequests b = some eb := by
    apply frame_handleLine parse w w1 la b eb hinv hl1 hgb
    intro response hr
    rw [hpa] at hr
    injection hr with hr
    subst hr
    exact getProp_id_obj_ne fa a b hab hida
  have hrej : ea.reject = ta := by rw [hea]
  refine ⟨?_, ?_, ?_, ?_⟩
  · intro data pre post hsplit hpre
    unfold handleResponse
    rw [hsplit, handleLines_stop parse w pre post bad err hpre
      (handleLine_parse_error parse _ bad err hbad hperr)]
  · intro data hsplit
    obtain ⟨tb, w2, heb, hl2, hinv2, _, _, _, hs2, hd2, _⟩ :=
      resolve_line parse w1 hinv1 lb (Json.obj fb) b eb hlb hpb hgpb hgb1
    have hq := quiet_handleLine parse w1 w2 lb ta hinv1 ⟨_, hc1, by simp⟩ hl2
    have hfin : handleResponse parse w data = w2 := by
      unfold handleResponse
      rw [hsplit, handleLines_cons_ok parse w w1 la _ hl1,
        handleLines_cons_ok parse w1 w2 lb _ hl2,
        handleLines_cons_error parse w2 bad [] err
          (handleLine_parse_error parse _ bad err hbad hperr)]
    have hrejb : eb.reject = tb := by rw [heb]
    rw [hfin, hrej, hrejb]
    refine ⟨?_, ?_, hd2, hs2⟩
    · have := dead_handleLines parse [lb] a w1 hinv1 hd1
      rw [handleLines_singleton_ok parse w1 w2 lb hl2] at this
      exact this
    · rw [hq.2.1]; exact hs1
  · intro data hsplit
    have hfin : handleResponse parse w data = w1 := by
      unfold handleResponse
      rw [hsplit, handleLines_cons_ok parse w w1 la _ hl1,
        handleLines_cons_error parse w1 bad [lb] err
          (handleLine_parse_error parse _ bad err hbad hperr)]
    rw [hfin, hrej]
    obtain ⟨tb, heb, _, hpb1⟩ := hinv1.entry b eb hgb1
    have hrejb : eb.reject = tb := by rw [heb]
    rw [hrejb]
    exact ⟨hd1, hs1, hgb1, hpb1⟩
  · intro data hsplit
    unfold handleResponse
    rw [hsplit, handleLines_cons_error parse w bad [la, lb] err
      (handleLine_parse_error parse _ bad err hbad hperr)]

/-- C2 amended, at requests 1 and 2 of a fresh client and the line `oops`. -/
theorem handleResponse_stops_at_malformed_line_witness :
    (∀ data pre post, splitLines (jsTrim data) = pre ++ "oops" :: post →
      (handleLines sampleParse twoPending pre).2 = none →
      handleResponse sampleParse twoPending data = (handleLines sampleParse twoPending pre).1) ∧
    (∀ data, splitLines (jsTrim data) = [sampleLine1, sampleLine2, "oops"] →
      mapGet (handleResponse sampleParse twoPending data).pendingRequests 1 = none ∧
      (handleResponse sampleParse twoPending data).promises[0]? =
        some { state := PromiseState.fulfilled sampleMsg1, settleCalls := 1 } ∧
      mapGet (handleResponse sampleParse twoPending data).pendingRequests 2 = none ∧
      (handleResponse sampleParse twoPending data).promises[1]? =
        some { state := PromiseState.fulfilled sampleMsg2, settleCalls := 1 }) ∧
    (∀ data, splitLines (jsTrim data) = [sampleLine1, "oops", sampleLine2] →
      mapGet (handleResponse sampleParse twoPending data).pendingRequests 1 = none ∧
      (handleResponse sampleParse twoPending data).promises[0]? =
        some { state := PromiseState.fulfilled sampleMsg1, settleCalls := 1 } ∧
      mapGet (handleResponse sampleParse twoPending data).pendingRequests 2 =
        some { resolve := ResolveFn.clearing 1 1, reject := 1 } ∧
      (handleResponse sampleParse twoPending data).promises[1]? =
        some { state := PromiseState.pending, settleCalls := 0 }) ∧
    (∀ data, splitLines (jsTrim data) = ["oops", sampleLine1, sampleLine2] →
      handleResponse sampleParse twoPending data = twoPending) :=
  handleResponse_stops_at_malformed_line sampleParse sampleStringify twoPending
    sampleLine1 sampleLine2 "oops"
    [("jsonrpc", Json.str "2.0"), ("id", Json.num 1), ("result", Json.obj [])]
    [("jsonrpc", Json.str "2.0"), ("id", Json.num 2),
      ("error", Json.obj [("code", Json.num (-32601))])]
    1 2 { resolve := ResolveFn.clearing 0 0, reject := 0 }
    { resolve := ResolveFn.clearing 1 1, reject := 1 } JsError.syntaxError
    ⟨[Event.send "tools/list" none, Event.send "tools/call" none], rfl⟩
    (by decide) (by decide) (by decide) (by decide) rfl rfl rfl rfl rfl rfl rfl

/-- The alarm of a pending request goes off, on a well-formed state. -/
theorem fire_step (w : World) (hw : Inv w) (t : Nat) (tm : Timer)
    (ht : w.timers[t]? = some tm) (ha : tm.state = TimerState.armed) :
    tm.promise = t ∧
    mapGet w.pendingRequests tm.id =
      some { resolve := ResolveFn.clearing t t, reject := t } ∧
    w.promises[t]? = some { state := PromiseState.pending, settleCalls := 0 } ∧
    mapGet (fireTimeout w t).pendingRequests tm.id = none ∧
    (fireTimeout w t).promises[t]? =
      some { state := PromiseState.rejected timeoutError, settleCalls := 1 } ∧
    Quiet (fireTimeout w t) t ∧ tm.id < (fireTimeout w t).requestId := by
  have hget := hw.armedOk t tm ht ha
  obtain ⟨t0, he0, ht0, hp⟩ := hw.entry tm.id _ hget
  have e0 : t = t0 := by injection he0 with _ b
  subst e0
  have hprom : tm.promise = t := by
    rw [ht] at ht0
    injection ht0 with a
    rw [a]
  have hlt := getElem?_lt_of_eq_some _ _ _ ht
  have hfire : fireTimeout w t =
      { w with
        timers := w.timers.set t { tm with state := TimerState.fired },
        pendingRequests := mapDelete w.pendingRequests tm.id,
        promises := settle w.promises tm.promise (PromiseState.rejected timeoutError) } := by
    unfold fireTimeout
    simp [ht, ha]
  refine ⟨hprom, hget, hp, ?_, ?_, ?_, ?_⟩
  · rw [hfire]
    simp [mapGet_mapDelete]
  · rw [hfire]
    simp only []
    rw [hprom, settle_getElem?]
    simp [hp]
  · rw [hfire]
    refine ⟨{ tm with state := TimerState.fired }, ?_, by simp⟩
    simp only []
    rw [List.getElem?_set]
    simp [hlt]
  · rw [hfire]
    exact (hw.keyLt _ _ hget).2

/-- C3. When the alarm of a request goes off (it is armed, so its entry is still
pending and its promise untouched), the entry is removed and the promise is
rejected with the timeout error by the one settle call made on it; after any later
events the promise is still so and the key is still absent, and a later response
line with that id, or a delivery made of such a line, leaves the state as it is. -/
theorem timeout_rejects_once_and_late_response_ignored
    (parse : String → Except JsError Json) (stringify : Json → String) (w : World)
    (t : Nat) (tm : Timer) (hw : Reachable parse stringify w)
    (ht : w.timers[t]? = some tm) (ha : tm.state = TimerState.armed) :
    mapHas w.pendingRequests tm.id = true ∧
    w.promises[tm.promise]? = some { state := PromiseState.pending, settleCalls := 0 } ∧
    mapGet (fireTimeout w t).pendingRequests tm.id = none ∧
    (fireTimeout w t).promises[tm.promise]? =
      some { state := PromiseState.rejected (JsError.error "请求超时"), settleCalls := 1 } ∧
    ∀ evs,
      (run parse stringify (fireTimeout w t) evs).promises[tm.promise]? =
        some { state := PromiseState.rejected (JsError.error "请求超时"), settleCalls := 1 } ∧
      mapGet (run parse stringify (fireTimeout w t) evs).pendingRequests tm.id = none ∧
      ∀ line response, parse line = Except.ok response →
        getProp (some response) "id" = Except.ok (some (Json.num (Int.ofNat tm.id))) →
        handleLine parse (run parse stringify (fireTimeout w t) evs) line =
          Except.ok (run parse stringify (fireTimeout w t) evs) ∧
        ∀ data, splitLines (jsTrim data) = [line] →
          handleResponse parse (run parse stringify (fireTimeout w t) evs) data =
            run parse stringify (fireTimeout w t) evs := by
  have hinv := inv_of_reachable parse stringify w hw
  obtain ⟨hprom, hget, hp, hd, hs, hq, hlt⟩ := fire_step w hinv t tm ht ha
  have hinv1 : Inv (fireTimeout w t) := inv_fireTimeout w hinv t
  rw [hprom]
  refine ⟨?_, hp, hd, hs, ?_⟩
  · rw [mapHas_eq_isSome, hget]; rfl
  · intro evs
    have hr := quiet_run parse stringify evs t _ hinv1 hq
    have hdr := dead_run parse stringify evs tm.id _ hinv1 hlt hd
    refine ⟨by rw [hr.1]; exact hs, hdr, ?_⟩
    intro line response hpl hid
    have hl : handleLine parse (run parse stringify (fireTimeout w t) evs) line =
        Except.ok (run parse stringify (fireTimeout w t) evs) := by
      apply handleLine_nomatch parse _ line response _ hpl hid
      intro key hkey
      rw [keyOf_num] at hkey
      injection hkey with hkey
      subst hkey
      exact hdr
    refine ⟨hl, ?_⟩
    intro data hsplit
    unfold handleResponse
    rw [hsplit, handleLines_singleton_ok parse _ _ line hl]

/-- C3, at the first request of a fresh client. -/
theorem timeout_rejects_once_and_late_response_ignored_witness :
    mapHas (sendRequest sampleStringify World.fresh "tools/list" none).1.pendingRequests 1 =
      true ∧
    (sendRequest sampleStringify World.fresh "tools/list" none).1.promises[0]? =
      some { state := PromiseState.pending, settleCalls := 0 } ∧
    mapGet (fireTimeout (sendRequest sampleStringify World.fresh "tools/list" none).1
      0).pendingRequests 1 = none ∧
    (fireTimeout (sendRequest sampleStringify World.fresh "tools/list" none).1 0).promises[0]? =
      some { state := PromiseState.rejected (JsError.error "请求超时"), settleCalls := 1 } ∧
    ∀ evs,
      (run sampleParse sampleStringify
        (fireTimeout (sendRequest sampleStringify World.fresh "tools/list" none).1 0)
        evs).promises[0]? =
        some { state := PromiseState.rejected (JsError.error "请求超时"), settleCalls := 1 } ∧
      mapGet (run sampleParse sampleStringify
        (fireTimeout (sendRequest sampleStringify World.fresh "tools/list" none).1 0)
        evs).pendingRequests 1 = none ∧
      ∀ line response, sampleParse line = Except.ok response →
        getProp (some response) "id" = Except.ok (some (Json.num (Int.ofNat 1))) →
        handleLine sampleParse (run sampleParse sampleStringify
          (fireTimeout (sendRequest sampleStringify World.fresh "tools/list" none).1 0)
          evs) line =
          Except.ok (run sampleParse sampleStringify
            (fireTimeout (sendRequest sampleStringify World.fresh "tools/list" none).1 0)
            evs) ∧
        ∀ data, splitLines (jsTrim data) = [line] →
          handleResponse sampleParse (run sampleParse sampleStringify
            (fireTimeout (sendRequest sampleStringify World.fresh "tools/list" none).1 0)
            evs) data =
            run sampleParse sampleStringify
              (fireTimeout (sendRequest sampleStringify World.fresh "tools/list" none).1 0)
              evs :=
  timeout_rejects_once_and_late_response_ignored sampleParse sampleStringify
    (sendRequest sampleStringify World.fresh "tools/list" none).1 0
    { id := 1, promise := 0, state := TimerState.armed }
    ⟨[Event.send "tools/list" none], rfl⟩ rfl rfl

theorem handleLine_null_error (parse : String → Except JsError Json) (w : World)
    (line : String) (hb : ¬ jsTrim line = "") (hp : parse line = Except.ok Json.null) :
    handleLine parse w line = Except.error JsError.typeError := by
  unfold handleLine
  simp [hb, hp, getProp]

theorem getProp_ok_of_ne_null (response : Json) (key : String) (h : response ≠ Json.null) :
    ∃ v, getProp (some response) key = Except.ok v := by
  cases response with
  | null => exact absurd rfl h
  | bool b => exact ⟨_, rfl⟩
  | num n => exact ⟨_, rfl⟩
  | str s =>
      by_cases hk : key = "length"
      · exact ⟨some (Json.num (utf16Length s)), by simp [getProp, hk]⟩
      · exact ⟨none, by simp [getProp, hk]⟩
  | arr items =>
      by_cases hk : key = "length"
      · exact ⟨some (Json.num items.length), by simp [getProp, hk]⟩
      · exact ⟨none, by simp [getProp, hk]⟩
  | obj fields => exact ⟨_, rfl⟩

/-- C4, refuted as stated: the text `null` is decodable and carries no `id`, yet
processing it raises a `TypeError` (reading `id` of `null`). With requests 1 and 2
pending, `handleResponse` catches it and leaves the loop, so the response to 1
that follows `null` in the same delivery is not processed, while delivered alone
it resolves request 1. -/
theorem handleLine_null_raises_counterexample :
    sampleParse "null" = Except.ok Json.null ∧
    mapHas twoPending.pendingRequests 1 = true ∧
    handleLine sampleParse twoPending "null" = Except.error JsError.typeError ∧
    splitLines (jsTrim nullThenResponse) = ["null", sampleLine1] ∧
    handleResponse sampleParse twoPending nullThenResponse = twoPending ∧
    awaited (handleResponse sampleParse twoPending nullThenResponse).promises 0 = none ∧
    awaited (handleResponse sampleParse twoPending (sampleLine1 ++ "\n")).promises 0 =
      some (Except.ok sampleMsg1) :=
  ⟨rfl, rfl, rfl, by decide, rfl, rfl, rfl⟩

/-- C4, amended. A decoded line whose `id` is not the key of a live pending entry
(absent, not a number, never sent, or no longer pending) leaves the whole state,
and so `pendingRequests`, the id counter and every promise, as it was. When the
decoded value is not `null` the loop body raises nothing. When it is `null`,
reading its `id` raises a `TypeError`, which `handleResponse` catches: the state is
unchanged and the lines after it in the delivery are not processed. -/
theorem handleLine_unmatched_id_no_effect (parse : String → Except JsError Json)
    (w : World) (line : String) (response : Json)
    (hp : parse line = Except.ok response)
    (hno : ∀ idv key, getProp (some response) "id" = Except.ok idv →
      keyOf idv = some key → mapGet w.pendingRequests key = none) :
    (handleLines parse w [line]).1 = w ∧
    (response ≠ Json.null → handleLine parse w line = Except.ok w) ∧
    (response = Json.null → ¬ jsTrim line = "" →
      handleLine parse w line = Except.error JsError.typeError ∧
      ∀ rest, handleLines parse w (line :: rest) = (w, some JsError.typeError)) := by
  have hnn : response ≠ Json.null → handleLine parse w line = Except.ok w := by
    intro hne
    obtain ⟨idv, hid⟩ := getProp_ok_of_ne_null response "id" hne
    exact handleLine_nomatch parse w line response idv hp hid (fun key hk => hno idv key hid hk)
  refine ⟨?_, hnn, ?_⟩
  · cases hl : handleLine parse w line with
    | error e => rw [handleLines_cons_error parse w line [] e hl]
    | ok w' =>
        rw [handleLines_singleton_ok parse w w' line hl]
        rcases handleLine_cases parse w line with
          h0 | ⟨e, he⟩ | ⟨r, key, entry, _, hpr, hid, _, hg, _⟩
        · rw [h0] at hl
          injection hl with hl
          exact hl.symm
        · rw [he] at hl
          cases hl
        · exfalso
          rw [hp] at hpr
          injection hpr with hpr
          subst hpr
          have := hno _ key hid (keyOf_num key)
          rw [this] at hg
          cases hg
  · intro hnull hb
    subst hnull
    have hl := handleLine_null_error parse w line hb hp
    exact ⟨hl, fun rest => handleLines_cons_error parse w line rest _ hl⟩

/-- C4 amended, at a duplicate: requests 1 and 2 were sent and the response to 1
was delivered, so 2 is still pending and 1 no longer is; the response to 1 arrives
a second time. -/
theorem handleLine_unmatched_id_no_effect_witness :
    (mapHas oneResolved.pendingRequests 2 = true ∧
      mapHas oneResolved.pendingRequests 1 = false) ∧
    (handleLines sampleParse oneResolved [sampleLine1]).1 = oneResolved ∧
    (sampleMsg1 ≠ Json.null →
      handleLine sampleParse oneResolved sampleLine1 = Except.ok oneResolved) ∧
    (sampleMsg1 = Json.null → ¬ jsTrim sampleLine1 = "" →
      handleLine sampleParse oneResolved sampleLine1 = Except.error JsError.typeError ∧
      ∀ rest, handleLines sampleParse oneResolved (sampleLine1 :: rest) =
        (oneResolved, some JsError.typeError)) :=
  ⟨⟨rfl, rfl⟩,
    handleLine_unmatched_id_no_effect sampleParse oneResolved sampleLine1 sampleMsg1 rfl
      (by
        intro idv key hid hk
        have h1 : getProp (some sampleMsg1) "id" = Except.ok (some (Json.num (Int.ofNat 1))) :=
          rfl
        rw [h1] at hid
        injection hid with hid
        subst hid
        rw [keyOf_num] at hk
        injection hk with hk
        subst hk
        rfl)⟩

/-! ## Identifiers -/

theorem step_requestId (parse : String → Except JsError Json) (stringify : Json → String)
    (w : World) (ev : Event) (hw : Inv w) :
    (step parse stringify w ev).requestId =
      match ev with
      | Event.send _ _ => w.requestId + 1
      | _ => w.requestId := by
  cases ev with
  | send method params => rfl
  | data chunk => exact (handleLines_requestId parse _ w hw).1
  | timeout t =>
      simp only [step]
      unfold fireTimeout
      cases ht : w.timers[t]? with
      | none => rfl
      | some tm => by_cases ha : tm.state = TimerState.armed <;> simp [ha]

theorem assignedIds_eq_range (parse : String → Except JsError Json)
    (stringify : Json → String) (evs : List Event) :
    ∀ w, Inv w →
      assignedIds parse stringify w evs = List.range' w.requestId (sendCount evs) := by
  induction evs with
  | nil => intro w _; rfl
  | cons ev rest ih =>
      intro w hw
      have hinv := inv_step parse stringify w ev hw
      have hid := step_requestId parse stringify w ev hw
      cases ev with
      | send method params =>
          simp only [assignedIds, sendCount, List.range'_succ]
          rw [ih _ hinv, hid]
      | data chunk =>
          simp only [assignedIds, sendCount]
          rw [ih _ hinv, hid]
      | timeout t =>
          simp only [assignedIds, sendCount]
          rw [ih _ hinv, hid]

/-- C5. Whatever deliveries and timeouts are interleaved, the identifiers allocated
by the `sendRequest` calls of one client are 1, 2, 3, ... in order of allocation:
positive and each strictly greater than all before it. In every state reached, the
identifier the next call will allocate is not a live key, and the call keeps every
live entry as it is. -/
theorem requestIds_strictly_increasing (parse : String → Except JsError Json)
    (stringify : Json → String) (evs : List Event) :
    assignedIds parse stringify World.fresh evs = List.range' 1 (sendCount evs) ∧
    (assignedIds parse stringify World.fresh evs).Pairwise (fun i j => i < j) ∧
    (∀ i ∈ assignedIds parse stringify World.fresh evs, 0 < i) ∧
    mapHas (run parse stringify World.fresh evs).pendingRequests
      (run parse stringify World.fresh evs).requestId = false ∧
    ∀ method params k e,
      mapGet (run parse stringify World.fresh evs).pendingRequests k = some e →
      k ≠ (run parse stringify World.fresh evs).requestId ∧
      mapGet (sendRequest stringify (run parse stringify World.fresh evs)
        method params).1.pendingRequests k = some e := by
  have hids := assignedIds_eq_range parse stringify evs World.fresh inv_fresh
  have hinv := inv_run parse stringify evs World.fresh inv_fresh
  have hfresh : World.fresh.requestId = 1 := rfl
  rw [hfresh] at hids
  refine ⟨hids, ?_, ?_, ?_, ?_⟩
  · rw [hids]
    exact List.pairwise_lt_range' 1 (sendCount evs)
  · intro i hi
    rw [hids] at hi
    have := (List.mem_range'_1.1 hi).1
    omega
  · rw [mapHas_eq_isSome]
    cases hg : mapGet (run parse stringify World.fresh evs).pendingRequests
        (run parse stringify World.fresh evs).requestId with
    | none => rfl
    | some e =>
        have := (hinv.keyLt _ e hg).2
        omega
  · intro method params k e hg
    have hlt := (hinv.keyLt k e hg).2
    have hne : ¬ k = (run parse stringify World.fresh evs).requestId := by omega
    refine ⟨hne, ?_⟩
    rw [sendRequest_mapGet]
    simp [hne, hg]

/-! ## The written request -/

/-- C7. The call `sendRequest(method, params)` appends exactly one chunk to the
subprocess's input: the serialization (`JSON.stringify` with one argument, which
yields a single line) of `{jsonrpc: "2.0", id, method, params}`, where `id` is the
value of the counter at the call and `params` is the empty object when omitted,
followed by one line feed. The entry of the returned promise is registered under
that same `id`, and no other key of the map changes. -/
theorem sendRequest_writes_one_request_line (stringify : Json → String) (w : World)
    (method : String) (params : Option Json) :
    (sendRequest stringify w method params).1.stdin =
      w.stdin ++
        [stringify
            (Json.obj
              [("jsonrpc", Json.str "2.0"),
               ("id", Json.num (Int.ofNat w.requestId)),
               ("method", Json.str method),
               ("params",
                 match params with
                 | some given => given
                 | none => Json.obj [])]) ++ "\n"] ∧
    (sendRequest stringify w method params).2 = w.promises.length ∧
    mapGet (sendRequest stringify w method params).1.pendingRequests w.requestId =
      some { resolve := ResolveFn.clearing w.timers.length
               (sendRequest stringify w method params).2,
             reject := (sendRequest stringify w method params).2 } ∧
    (sendRequest stringify w method params).1.timers[w.timers.length]? =
      some { id := w.requestId, promise := (sendRequest stringify w method params).2,
             state := TimerState.armed } ∧
    ∀ k, k ≠ w.requestId →
      mapGet (sendRequest stringify w method params).1.pendingRequests k =
        mapGet w.pendingRequests k := by
  refine ⟨?_, rfl, ?_, ?_, ?_⟩
  · cases params <;> rfl
  · rw [sendRequest_mapGet]
    simp [sendRequest]
  · simp [sendRequest]
  · intro k hk
    rw [sendRequest_mapGet]
    simp [hk]

/-! ## The first request of a client -/

/-- C8, refuted as stated: after `initialize()` on a fresh client and the delivery
of the line `{"jsonrpc":"2.0","id":1,"result":{}}`, the call returns the whole
decoded message, which is not its `result` member `{}`. -/
theorem initialize_returns_result_counterexample :
    (initializeSend sampleStringify World.fresh).2 = 0 ∧
    splitLines (jsTrim (sampleLine1 ++ "\n")) = [sampleLine1] ∧
    sampleParse sampleLine1 = Except.ok sampleMsg1 ∧
    getProp (some sampleMsg1) "id" = Except.ok (some (Json.num 1)) ∧
    getProp (some sampleMsg1) "result" = Except.ok (some (Json.obj [])) ∧
    initializeResult
        (handleResponse sampleParse (initializeSend sampleStringify World.fresh).1
          (sampleLine1 ++ "\n")) 0 =
      some (Except.ok sampleMsg1) ∧
    initializeResult
        (handleResponse sampleParse (initializeSend sampleStringify World.fresh).1
          (sampleLine1 ++ "\n")) 0 ≠
      some (Except.ok (Json.obj [])) :=
  ⟨rfl, by decide, rfl, rfl, rfl, rfl, by
    intro h
    have h' : some (Except.ok sampleMsg1 : Except JsError Json) =
        some (Except.ok (Json.obj [])) := h
    injection h' with h'
    injection h' with h'
    injection h' with h'
    cases h'⟩

/-- C8, amended. On a fresh client, `initialize()` sends the first request, with
`id` 1 and method `initialize`; when a single line decoding to an object with
`id` 1 and `result` R is then delivered, the call returns the whole decoded
message, whose `result` member is R, and `pendingRequests` is empty afterwards. -/
theorem initialize_returns_decoded_message (parse : String → Except JsError Json)
    (stringify : Json → String) (data line : String) (fields : List (String × Json))
    (R : Json)
    (hsplit : splitLines (jsTrim data) = [line]) (hline : ¬ jsTrim line = "")
    (hparse : parse line = Except.ok (Json.obj fields))
    (hid : lookupField "id" fields = some (Json.num 1))
    (hres : lookupField "result" fields = some R) :
    (initializeSend stringify World.fresh).1.stdin =
      [stringify (requestRecord 1 "initialize" (some initializeParams)) ++ "\n"] ∧
    mapHas (initializeSend stringify World.fresh).1.pendingRequests 1 = true ∧
    initializeResult
        (handleResponse parse (initializeSend stringify World.fresh).1 data)
        (initializeSend stringify World.fresh).2 =
      some (Except.ok (Json.obj fields)) ∧
    getProp (some (Json.obj fields)) "result" = Except.ok (some R) ∧
    (handleResponse parse (initializeSend stringify World.fresh).1 data).pendingRequests =
      [] := by
  have hl := handleLine_match parse (initializeSend stringify World.fresh).1 line
    (Json.obj fields) 1 { resolve := ResolveFn.clearing 0 0, reject := 0 } hline hparse
    (by simp only [getProp, hid]; rfl) (by decide) rfl
  have hfin : handleResponse parse (initializeSend stringify World.fresh).1 data =
      callResolve
        { (initializeSend stringify World.fresh).1 with
          pendingRequests :=
            mapDelete (initializeSend stringify World.fresh).1.pendingRequests 1 }
        (ResolveFn.clearing 0 0) (Json.obj fields) := by
    unfold handleResponse
    rw [hsplit, handleLines_singleton_ok parse _ _ line hl]
  refine ⟨rfl, rfl, ?_, ?_, ?_⟩
  · rw [hfin]; rfl
  · simp [getProp, hres]
  · rw [hfin]; rfl

/-- C8 amended, at the line `{"jsonrpc":"2.0","id":1,"result":{}}`. -/
theorem initialize_returns_decoded_message_witness :
    (initializeSend sampleStringify World.fresh).1.stdin =
      [sampleStringify (requestRecord 1 "initialize" (some initializeParams)) ++ "\n"] ∧
    mapHas (initializeSend sampleStringify World.fresh).1.pendingRequests 1 = true ∧
    initializeResult
        (handleResponse sampleParse (initializeSend sampleStringify World.fresh).1
          (sampleLine1 ++ "\n"))
        (initializeSend sampleStringify World.fresh).2 =
      some (Except.ok sampleMsg1) ∧
    getProp (some sampleMsg1) "result" = Except.ok (some (Json.obj [])) ∧
    (handleResponse sampleParse (initializeSend sampleStringify World.fresh).1
      (sampleLine1 ++ "\n")).pendingRequests = [] :=
  initialize_returns_decoded_message sampleParse sampleStringify (sampleLine1 ++ "\n")
    sampleLine1 [("jsonrpc", Json.str "2.0"), ("id", Json.num 1), ("result", Json.obj [])]
    (Json.obj []) (by decide) (by decide) rfl rfl rfl

/-! ## Decode failures -/

/-- C6. The method `handleResponse` returns a state for every input string, in
every reachable state: it processes the lines up to the first one that raises (all
of them when none does) and stops there, and the state it returns is again
reachable. In particular a delivery whose first line is undecodable text, or the
text `null`, leaves the state unchanged. No promise is rejected by a delivery.
Every entry pending before the delivery whose key is the `id` of none of the
processed lines is still pending afterwards, with its promise untouched, and a
later delivery made of a decodable line with that `id` removes the entry and
fulfils the promise with the decoded message. -/
theorem handleResponse_decode_failure_nonfatal (parse : String → Except JsError Json)
    (stringify : Json → String) (w : World) (data : String)
    (hw : Reachable parse stringify w) :
    ∃ pre rest, splitLines (jsTrim data) = pre ++ rest ∧
      (handleLines parse w pre).2 = none ∧
      handleResponse parse w data = (handleLines parse w pre).1 ∧
      (rest = [] ∨ ∃ bad rest' e, rest = bad :: rest' ∧
        handleLine parse (handleLines parse w pre).1 bad = Except.error e) ∧
      Reachable parse stringify (handleResponse parse w data) ∧
      (∀ bad rest' e, splitLines (jsTrim data) = bad :: rest' → ¬ jsTrim bad = "" →
        parse bad = Except.error e → handleResponse parse w data = w) ∧
      (∀ bad rest', splitLines (jsTrim data) = bad :: rest' → ¬ jsTrim bad = "" →
        parse bad = Except.ok Json.null → handleResponse parse w data = w) ∧
      (∀ p e, awaited (handleResponse parse w data).promises p = some (Except.error e) →
        awaited w.promises p = some (Except.error e)) ∧
      ∀ k entry, mapGet w.pendingRequests k = some entry →
        (∀ l ∈ pre, ∀ response, parse l = Except.ok response →
          getProp (some response) "id" ≠ Except.ok (some (Json.num (Int.ofNat k)))) →
        mapGet (handleResponse parse w data).pendingRequests k = some entry ∧
        (handleResponse parse w data).promises[entry.reject]? =
          some { state := PromiseState.pending, settleCalls := 0 } ∧
        ∀ later line response, splitLines (jsTrim later) = [line] → ¬ jsTrim line = "" →
          parse line = Except.ok response →
          getProp (some response) "id" = Except.ok (some (Json.num (Int.ofNat k))) →
          mapGet (handleResponse parse (handleResponse parse w data) later).pendingRequests
            k = none ∧
          (handleResponse parse (handleResponse parse w data) later).promises[entry.reject]? =
            some { state := PromiseState.fulfilled response, settleCalls := 1 } := by
  have hinv := inv_of_reachable parse stringify w hw
  obtain ⟨pre, rest, h1, h2, h3, h4⟩ := handleLines_prefix parse (splitLines (jsTrim data)) w
  have hfin : handleResponse parse w data = (handleLines parse w pre).1 := h3
  have hreach : Reachable parse stringify (handleResponse parse w data) := by
    have := reachable_run parse stringify w hw [Event.data data]
    exact this
  have hinv' : Inv (handleResponse parse w data) :=
    inv_of_reachable parse stringify _ hreach
  refine ⟨pre, rest, h1, h2, hfin, h4, hreach, ?_, ?_, ?_, ?_⟩
  · intro bad rest' e hsplit hb hp
    unfold handleResponse
    rw [hsplit, handleLines_cons_error parse w bad rest' e
      (handleLine_parse_error parse w bad e hb hp)]
  · intro bad rest' hsplit hb hp
    unfold handleResponse
    rw [hsplit, handleLines_cons_error parse w bad rest' JsError.typeError
      (handleLine_null_error parse w bad hb hp)]
  · intro p e h
    exact notRejected_handleLines parse _ p e w hinv h
  · intro k entry hg hno
    have hg' : mapGet (handleResponse parse w data).pendingRequests k = some entry := by
      rw [hfin]
      exact frame_handleLines parse pre k entry w hinv hg hno
    obtain ⟨t, he, _, hpr⟩ := hinv'.entry k entry hg'
    have hrej : entry.reject = t := by rw [he]
    refine ⟨hg', by rw [hrej]; exact hpr, ?_⟩
    intro later line response hsplit hb hp hid
    obtain ⟨t', w2, he', hl, _, _, _, _, hs, hd, _⟩ :=
      resolve_line parse (handleResponse parse w data) hinv' line response k entry hb hp hid hg'
    have ht : t' = t := by
      rw [he] at he'
      injection he' with _ b
      exact b.symm
    subst ht
    have hfin2 : handleResponse parse (handleResponse parse w data) later = w2 := by
      show (handleLines parse (handleResponse parse w data) (splitLines (jsTrim later))).1 = w2
      rw [hsplit, handleLines_singleton_ok parse _ w2 line hl]
    rw [hfin2, hrej]
    exact ⟨hd, hs⟩

/-- C6, at two pending requests and the delivery of the text `null`. -/
theorem handleResponse_decode_failure_nonfatal_witness :
    ∃ pre rest, splitLines (jsTrim "null\n") = pre ++ rest ∧
      (handleLines sampleParse twoPending pre).2 = none ∧
      handleResponse sampleParse twoPending "null\n" =
        (handleLines sampleParse twoPending pre).1 ∧
      (rest = [] ∨ ∃ bad rest' e, rest = bad :: rest' ∧
        handleLine sampleParse (handleLines sampleParse twoPending pre).1 bad =
          Except.error e) ∧
      Reachable sampleParse sampleStringify (handleResponse sampleParse twoPending "null\n") ∧
      (∀ bad rest' e, splitLines (jsTrim "null\n") = bad :: rest' → ¬ jsTrim bad = "" →
        sampleParse bad = Except.error e →
        handleResponse sampleParse twoPending "null\n" = twoPending) ∧
      (∀ bad rest', splitLines (jsTrim "null\n") = bad :: rest' → ¬ jsTrim bad = "" →
        sampleParse bad = Except.ok Json.null →
        handleResponse sampleParse twoPending "null\n" = twoPending) ∧
      (∀ p e,
        awaited (handleResponse sampleParse twoPending "null\n").promises p =
          some (Except.error e) →
        awaited twoPending.promises p = some (Except.error e)) ∧
      ∀ k entry, mapGet twoPending.pendingRequests k = some entry →
        (∀ l ∈ pre, ∀ response, sampleParse l = Except.ok response →
          getProp (some response) "id" ≠ Except.ok (some (Json.num (Int.ofNat k)))) →
        mapGet (handleResponse sampleParse twoPending "null\n").pendingRequests k =
          some entry ∧
        (handleResponse sampleParse twoPending "null\n").promises[entry.reject]? =
          some { state := PromiseState.pending, settleCalls := 0 } ∧
        ∀ later line response, splitLines (jsTrim later) = [line] → ¬ jsTrim line = "" →
          sampleParse line = Except.ok response →
          getProp (some response) "id" = Except.ok (some (Json.num (Int.ofNat k))) →
          mapGet (handleResponse sampleParse
            (handleResponse sampleParse twoPending "null\n") later).pendingRequests k =
            none ∧
          (handleResponse sampleParse
            (handleResponse sampleParse twoPending "null\n") later).promises[entry.reject]? =
            some { state := PromiseState.fulfilled response, settleCalls := 1 } :=
  handleResponse_decode_failure_nonfatal sampleParse sampleStringify twoPending "null\n"
    ⟨[Event.send "tools/list" none, Event.send "tools/call" none], rfl⟩

/-! ## Claims about `Context7Tester` -/

theorem deliveryOutcome_ne_pending (parse : String → Except JsError Json) (data : String) :
    deliveryOutcome parse data ≠ PromiseState.pending := by
  unfold deliveryOutcome
  cases parse data <;> simp

theorem callListener_promises (parse : String → Except JsError Json) (s : Tester)
    (l : Listener) (data : String) :
    (callListener parse s l data).promises =
      settle s.promises l.promise (deliveryOutcome parse data) := by
  unfold callListener deliveryOutcome
  cases parse data <;> rfl

theorem settle_state_keep (ps : List PromiseCell) (p q : Nat) (o st : PromiseState)
    (hst : st ≠ PromiseState.pending)
    (h : ∃ c, ps[p]? = some c ∧ c.state = st) :
    ∃ c, (settle ps q o)[p]? = some c ∧ c.state = st := by
  obtain ⟨c, hc, hs⟩ := h
  rw [settle_getElem?]
  by_cases hpq : p = q
  · subst hpq
    rw [if_pos rfl, hc]
    refine ⟨_, rfl, ?_⟩
    show (match c.state with
      | PromiseState.pending => o
      | s => s) = st
    rw [hs]
    cases st with
    | pending => exact absurd rfl hst
    | fulfilled v => rfl
    | rejected e => rfl
  · rw [if_neg hpq]
    exact ⟨c, hc, hs⟩

theorem settle_state_done (ps : List PromiseCell) (p : Nat) (o : PromiseState)
    (h : ∃ c, ps[p]? = some c ∧ c.state = PromiseState.pending) :
    ∃ c, (settle ps p o)[p]? = some c ∧ c.state = o := by
  obtain ⟨c, hc, hs⟩ := h
  rw [settle_getElem?, if_pos rfl, hc]
  refine ⟨_, rfl, ?_⟩
  show (match c.state with
    | PromiseState.pending => o
    | s => s) = o
  rw [hs]

theorem settle_state_other (ps : List PromiseCell) (p q : Nat) (o : PromiseState)
    (hpq : ¬ p = q)
    (h : ∃ c, ps[p]? = some c ∧ c.state = PromiseState.pending) :
    ∃ c, (settle ps q o)[p]? = some c ∧ c.state = PromiseState.pending := by
  rw [settle_getElem?, if_neg hpq]
  exact h

theorem callListeners_keep (parse : String → Except JsError Json) (data : String)
    (p : Nat) (st : PromiseState) (hst : st ≠ PromiseState.pending) (ls : List Listener) :
    ∀ s : Tester, (∃ c, s.promises[p]? = some c ∧ c.state = st) →
      ∃ c, (callListeners parse data s ls).promises[p]? = some c ∧ c.state = st := by
  induction ls with
  | nil => intro s h; exact h
  | cons l rest ih =>
      intro s h
      refine ih (callListener parse s l data) ?_
      rw [callListener_promises]
      exact settle_state_keep _ _ _ _ st hst h

theorem callListeners_settles (parse : String → Except JsError Json) (data : String)
    (p : Nat) (ls : List Listener) :
    ∀ s : Tester, (∃ c, s.promises[p]? = some c ∧ c.state = PromiseState.pending) →
      (∃ l ∈ ls, l.promise = p) →
      ∃ c, (callListeners parse data s ls).promises[p]? = some c ∧
        c.state = deliveryOutcome parse data := by
  induction ls with
  | nil => intro s _ h; obtain ⟨l, hl, _⟩ := h; cases hl
  | cons l rest ih =>
      intro s hpend hex
      have hcl := callListener_promises parse s l data
      by_cases hlp : l.promise = p
      · refine callListeners_keep parse data p _ (deliveryOutcome_ne_pending parse data)
          rest (callListener parse s l data) ?_
        rw [hcl, hlp]
        exact settle_state_done _ _ _ hpend
      · obtain ⟨l', hl', hp'⟩ := hex
        rcases List.mem_cons.1 hl' with heq | hmem
        · subst heq
          exact absurd hp' hlp
        · refine ih (callListener parse s l data) ?_ ⟨l', hmem, hp'⟩
          rw [hcl]
          exact settle_state_other _ _ _ _ (fun x => hlp x.symm) hpend

/-- C9, refuted as stated: the tester sends request A with id 1, its alarm goes
off, the tester sends request B with id 2, and the late response to A, which
carries id 1, is delivered: B, pending until then, is completed by it. -/
theorem sendMCPRequest_late_response_counterexample :
    (sendMCPRequest sampleStringify 2
      (Tester.fireTimeout (sendMCPRequest sampleStringify 1 Tester.fresh "tools/list" none).1 0)
      "tools/list" none).2 = 1 ∧
    awaited (sendMCPRequest sampleStringify 2
      (Tester.fireTimeout (sendMCPRequest sampleStringify 1 Tester.fresh "tools/list" none).1 0)
      "tools/list" none).1.promises 0 = some (Except.error (JsError.error "请求超时")) ∧
    awaited (sendMCPRequest sampleStringify 2
      (Tester.fireTimeout (sendMCPRequest sampleStringify 1 Tester.fresh "tools/list" none).1 0)
      "tools/list" none).1.promises 1 = none ∧
    sampleParse (sampleLine1 ++ "\n") = Except.ok sampleMsg1 ∧
    getProp (some sampleMsg1) "id" = Except.ok (some (Json.num 1)) ∧
    awaited lateResponseRun.promises 1 = some (Except.ok sampleMsg1) :=
  ⟨rfl, rfl, rfl, rfl, rfl, rfl⟩

/-! ### Reachable tester states -/

theorem clearTesterTimeout_length (ts : List TesterTimer) (q : Nat) :
    (clearTesterTimeout ts q).length = ts.length := by
  unfold clearTesterTimeout
  cases ts[q]? with
  | none => rfl
  | some tm => by_cases h : tm.state = TimerState.armed <;> simp [h]

theorem clearTesterTimeout_promise (ts : List TesterTimer) (q t : Nat) (tm : TesterTimer)
    (h : (clearTesterTimeout ts q)[t]? = some tm) :
    ∃ tm0, ts[t]? = some tm0 ∧ tm0.promise = tm.promise := by
  unfold clearTesterTimeout at h
  cases hq : ts[q]? with
  | none =>
      rw [hq] at h
      exact ⟨tm, h, rfl⟩
  | some tq =>
      rw [hq] at h
      by_cases ha : tq.state = TimerState.armed
      · simp only [ha, if_true] at h
        rw [List.getElem?_set] at h
        by_cases hqt : q = t
        · subst hqt
          have hlt := getElem?_lt_of_eq_some _ _ _ hq
          simp [hlt] at h
          subst h
          exact ⟨tq, hq, rfl⟩
        · simp [hqt] at h
          exact ⟨tm, h, rfl⟩
      · simp only [ha, if_false] at h
        exact ⟨tm, h, rfl⟩

theorem testerInv_fresh : TesterInv Tester.fresh := by
  constructor
  · rfl
  · intro t tm h
    simp [Tester.fresh] at h

theorem testerInv_send (stringify : Json → String) (now : Nat) (s : Tester)
    (method : String) (params : Option Json) (hs : TesterInv s) :
    TesterInv (sendMCPRequest stringify now s method params).1 := by
  constructor
  · simp [sendMCPRequest, hs.lenEq]
  · intro t tm h
    simp only [sendMCPRequest] at h
    by_cases hlt : t < s.timers.length
    · rw [List.getElem?_append_left hlt] at h
      exact hs.timerOk t tm h
    · have hge : s.timers.length ≤ t := by omega
      rw [List.getElem?_append_right hge] at h
      cases hd : t - s.timers.length with
      | zero =>
          rw [hd] at h
          simp at h
          subst h
          have := hs.lenEq
          simp only []
          omega
      | succ n =>
          rw [hd] at h
          simp at h

/-- The two ways an alarm event of the tester can go. -/
theorem tester_fireTimeout_cases (s : Tester) (t : Nat) :
    Tester.fireTimeout s t = s ∨
    ∃ tm, s.timers[t]? = some tm ∧ tm.state = TimerState.armed ∧
      Tester.fireTimeout s t =
        { s with
          timers := s.timers.set t { tm with state := TimerState.fired },
          promises := settle s.promises tm.promise (PromiseState.rejected timeoutError) } := by
  unfold Tester.fireTimeout
  cases ht : s.timers[t]? with
  | none => left; rfl
  | some tm =>
      by_cases ha : tm.state = TimerState.armed
      · right
        exact ⟨tm, rfl, ha, by simp [ha]⟩
      · left
        simp [ha]

theorem testerInv_fire (s : Tester) (t : Nat) (hs : TesterInv s) :
    TesterInv (Tester.fireTimeout s t) := by
  rcases tester_fireTimeout_cases s t with h | ⟨tm, ht, _, h⟩
  · rw [h]; exact hs
  · rw [h]
    constructor
    · simp [settle_length, hs.lenEq]
    · intro q tq hq
      simp only [] at hq
      rw [List.getElem?_set] at hq
      by_cases htq : t = q
      · subst htq
        have hlt := getElem?_lt_of_eq_some _ _ _ ht
        simp [hlt] at hq
        subst hq
        exact hs.timerOk t tm ht
      · simp [htq] at hq
        exact hs.timerOk q tq hq

theorem testerInv_callListeners (parse : String → Except JsError Json) (data : String)
    (ls : List Listener) :
    ∀ s : Tester, TesterInv s → TesterInv (callListeners parse data s ls) := by
  induction ls with
  | nil => intro s hs; exact hs
  | cons l rest ih =>
      intro s hs
      refine ih (callListener parse s l data) ?_
      have htim : (callListener parse s l data).timers = clearTesterTimeout s.timers l.timer := by
        unfold callListener
        cases parse data <;> rfl
      constructor
      · rw [htim, callListener_promises, clearTesterTimeout_length, settle_length]
        exact hs.lenEq
      · intro t tm h
        rw [htim] at h
        obtain ⟨tm0, h0, hp0⟩ := clearTesterTimeout_promise _ _ _ _ h
        rw [← hp0]
        exact hs.timerOk t tm0 h0

theorem testerInv_step (parse : String → Except JsError Json) (stringify : Json → String)
    (s : Tester) (ev : TesterEvent) (hs : TesterInv s) :
    TesterInv (Tester.step parse stringify s ev) := by
  cases ev with
  | send now method params => exact testerInv_send stringify now s method params hs
  | data chunk =>
      exact testerInv_callListeners parse chunk s.listeners _ ⟨hs.lenEq, hs.timerOk⟩
  | timeout t => exact testerInv_fire s t hs

theorem testerInv_run (parse : String → Except JsError Json) (stringify : Json → String)
    (evs : List TesterEvent) :
    ∀ s, TesterInv s → TesterInv (Tester.run parse stringify s evs) := by
  induction evs with
  | nil => intro s hs; exact hs
  | cons ev rest ih => intro s hs; exact ih _ (testerInv_step parse stringify s ev hs)

theorem testerInv_of_reachable (parse : String → Except JsError Json)
    (stringify : Json → String) (s : Tester) (h : Tester.Reachable parse stringify s) :
    TesterInv s := by
  obtain ⟨evs, rfl⟩ := h
  exact testerInv_run parse stringify evs _ testerInv_fresh

/-- A settled promise of the tester stays as it is while requests are sent and
alarms go off. -/
theorem tester_settled_run (parse : String → Except JsError Json) (stringify : Json → String)
    (p : Nat) (st : PromiseState) (hst : st ≠ PromiseState.pending) (evs : List TesterEvent) :
    ∀ s : Tester, (∀ ev ∈ evs, ∀ chunk, ev ≠ TesterEvent.data chunk) →
      (∃ c, s.promises[p]? = some c ∧ c.state = st) →
      ∃ c, (Tester.run parse stringify s evs).promises[p]? = some c ∧ c.state = st := by
  induction evs with
  | nil => intro s _ h; exact h
  | cons ev rest ih =>
      intro s hnd h
      refine ih _ (fun e he => hnd e (List.mem_cons_of_mem _ he)) ?_
      cases ev with
      | send now method params =>
          obtain ⟨c, hc, hs⟩ := h
          have hlt := getElem?_lt_of_eq_some _ _ _ hc
          refine ⟨c, ?_, hs⟩
          simp only [Tester.step, sendMCPRequest]
          rw [List.getElem?_append_left hlt]
          exact hc
      | data chunk => exact absurd rfl (hnd _ (List.mem_cons_self _ _) chunk)
      | timeout t =>
          simp only [Tester.step]
          rcases tester_fireTimeout_cases s t with h0 | ⟨tm, _, _, h1⟩
          · rw [h0]; exact h
          · rw [h1]
            exact settle_state_keep _ _ _ _ st hst h

/-- From a request that is waiting (listener registered, alarm armed, promise
pending), through sends and alarms only: either its alarm has not gone off and it
is still waiting, or its alarm has gone off and it is rejected with the timeout
error. -/
theorem tester_track (parse : String → Except JsError Json) (stringify : Json → String)
    (p : Nat) (evs : List TesterEvent) :
    ∀ s : Tester, TesterInv s → (∀ ev ∈ evs, ∀ chunk, ev ≠ TesterEvent.data chunk) →
      (∃ l ∈ s.listeners, l.promise = p) →
      (∃ tm, s.timers[p]? = some tm ∧ tm.state = TimerState.armed) →
      (∃ c, s.promises[p]? = some c ∧ c.state = PromiseState.pending) →
      (TesterEvent.timeout p ∉ evs ∧
        (∃ l ∈ (Tester.run parse stringify s evs).listeners, l.promise = p) ∧
        ∃ c, (Tester.run parse stringify s evs).promises[p]? = some c ∧
          c.state = PromiseState.pending) ∨
      (TesterEvent.timeout p ∈ evs ∧
        ∃ c, (Tester.run parse stringify s evs).promises[p]? = some c ∧
          c.state = PromiseState.rejected timeoutError) := by
  induction evs with
  | nil =>
      intro s _ _ hl _ hp
      exact Or.inl ⟨List.not_mem_nil _, hl, hp⟩
  | cons ev rest ih =>
      intro s hs hnd hl ht hp
      have hnd' : ∀ e ∈ rest, ∀ chunk, e ≠ TesterEvent.data chunk :=
        fun e he => hnd e (List.mem_cons_of_mem _ he)
      cases ev with
      | send now method params =>
          have hinv := testerInv_send stringify now s method params hs
          obtain ⟨l, hlm, hlp⟩ := hl
          obtain ⟨tm, htm, hta⟩ := ht
          obtain ⟨c, hc, hcs⟩ := hp
          have hlt1 := getElem?_lt_of_eq_some _ _ _ htm
          have hlt2 := getElem?_lt_of_eq_some _ _ _ hc
          have h := ih (sendMCPRequest stringify now s method params).1 hinv hnd'
            ⟨l, by simp only [sendMCPRequest]; exact List.mem_append_left _ hlm, hlp⟩
            ⟨tm, by simp only [sendMCPRequest]; rw [List.getElem?_append_left hlt1]; exact htm,
              hta⟩
            ⟨c, by simp only [sendMCPRequest]; rw [List.getElem?_append_left hlt2]; exact hc,
              hcs⟩
          rcases h with ⟨hn, h2⟩ | ⟨hm, h2⟩
          · left
            refine ⟨?_, h2⟩
            intro hmem
            rcases List.mem_cons.1 hmem with heq | hmem'
            · cases heq
            · exact hn hmem'
          · right
            exact ⟨List.mem_cons_of_mem _ hm, h2⟩
      | data chunk => exact absurd rfl (hnd _ (List.mem_cons_self _ _) chunk)
      | timeout t =>
          by_cases htp : t = p
          · subst htp
            right
            refine ⟨List.mem_cons_self _ _, ?_⟩
            refine tester_settled_run parse stringify t _ (by simp) rest _ hnd' ?_
            obtain ⟨tm, htm, hta⟩ := ht
            have hprom := hs.timerOk t tm htm
            have hfire : Tester.fireTimeout s t =
                { s with
                  timers := s.timers.set t { tm with state := TimerState.fired },
                  promises :=
                    settle s.promises tm.promise (PromiseState.rejected timeoutError) } := by
              unfold Tester.fireTimeout
              simp [htm, hta]
            simp only [Tester.step]
            rw [hfire, hprom]
            exact settle_state_done _ _ _ hp
          · have hinv := testerInv_fire s t hs
            have hkeep :
                (∃ l ∈ (Tester.fireTimeout s t).listeners, l.promise = p) ∧
                (∃ tm, (Tester.fireTimeout s t).timers[p]? = some tm ∧
                  tm.state = TimerState.armed) ∧
                (∃ c, (Tester.fireTimeout s t).promises[p]? = some c ∧
                  c.state = PromiseState.pending) := by
              rcases tester_fireTimeout_cases s t with h0 | ⟨tm, htm, _, h1⟩
              · rw [h0]; exact ⟨hl, ht, hp⟩
              · rw [h1]
                have hprom := hs.timerOk t tm htm
                refine ⟨hl, ?_, ?_⟩
                · obtain ⟨tp, htp', hta⟩ := ht
                  refine ⟨tp, ?_, hta⟩
                  simp only []
                  rw [List.getElem?_set]
                  simp [htp, htp']
                · simp only []
                  rw [hprom]
                  exact settle_state_other _ _ _ _ (fun x => htp x.symm) hp
            have h := ih (Tester.fireTimeout s t) hinv hnd' hkeep.1 hkeep.2.1 hkeep.2.2
            rcases h with ⟨hn, h2⟩ | ⟨hm, h2⟩
            · left
              refine ⟨?_, h2⟩
              intro hmem
              rcases List.mem_cons.1 hmem with heq | hmem'
              · injection heq with heq
                exact htp heq.symm
              · exact hn hmem'
            · right
              exact ⟨List.mem_cons_of_mem _ hm, h2⟩

/-- C9, amended. In the test client responses are not matched by identifier. After
a request is sent from any reachable state, and after any further sends and
alarms, the first stdout delivery settles it as follows, whatever `id` the
delivery carries: when the request's own alarm (the one armed by the call, at
index `s.timers.length`) has not gone off, its promise is
fulfilled with the decoded delivery if the whole delivery decodes, and rejected
with the decode error if it does not; when its alarm has gone off before the
delivery, it stays rejected with the timeout error. -/
theorem sendMCPRequest_completed_by_first_delivery (parse : String → Except JsError Json)
    (stringify : Json → String) (now : Nat) (s : Tester) (method : String)
    (params : Option Json) (evs : List TesterEvent) (data : String)
    (hs : Tester.Reachable parse stringify s)
    (hnd : ∀ ev ∈ evs, ∀ chunk, ev ≠ TesterEvent.data chunk) :
    (sendMCPRequest stringify now s method params).1.timers[s.timers.length]? =
      some { promise := (sendMCPRequest stringify now s method params).2,
             state := TimerState.armed } ∧
    ∃ c,
      (Tester.deliver parse
        (Tester.run parse stringify (sendMCPRequest stringify now s method params).1 evs)
        data).promises[(sendMCPRequest stringify now s method params).2]? = some c ∧
      (TesterEvent.timeout s.timers.length ∉ evs →
        c.state =
          match parse data with
          | Except.ok response => PromiseState.fulfilled response
          | Except.error e => PromiseState.rejected e) ∧
      (TesterEvent.timeout s.timers.length ∈ evs →
        c.state = PromiseState.rejected (JsError.error "请求超时")) := by
  have hinv := testerInv_of_reachable parse stringify s hs
  have hlen := hinv.lenEq
  have hinv1 := testerInv_send stringify now s method params hinv
  have hp2 : (sendMCPRequest stringify now s method params).2 = s.promises.length := rfl
  refine ⟨by simp [sendMCPRequest], ?_⟩
  rw [hp2, hlen]
  have htrack := tester_track parse stringify s.promises.length evs
    (sendMCPRequest stringify now s method params).1 hinv1 hnd
    ⟨{ timer := s.timers.length, promise := s.promises.length },
      by simp only [sendMCPRequest]; exact List.mem_append_right _ (List.mem_singleton_self _),
      rfl⟩
    ⟨{ promise := s.promises.length, state := TimerState.armed },
      by simp [sendMCPRequest, ← hlen], rfl⟩
    ⟨{ state := PromiseState.pending, settleCalls := 0 }, by simp [sendMCPRequest], rfl⟩
  rcases htrack with ⟨hn, hl, hpend⟩ | ⟨hm, hrej⟩
  · obtain ⟨c, hc, hcs⟩ := callListeners_settles parse data s.promises.length
      (Tester.run parse stringify (sendMCPRequest stringify now s method params).1 evs).listeners
      { Tester.run parse stringify (sendMCPRequest stringify now s method params).1 evs with
        listeners := [] } hpend hl
    exact ⟨c, hc, fun _ => hcs, fun hmem => absurd hmem hn⟩
  · obtain ⟨c, hc, hcs⟩ := callListeners_keep parse data s.promises.length
      (PromiseState.rejected timeoutError) (by simp)
      (Tester.run parse stringify (sendMCPRequest stringify now s method params).1 evs).listeners
      { Tester.run parse stringify (sendMCPRequest stringify now s method params).1 evs with
        listeners := [] } hrej
    exact ⟨c, hc, fun hnm => absurd hm hnm, fun _ => hcs⟩

/-- C9 amended, at a fresh tester: request A is sent, then request B, then the
response to A is delivered. -/
theorem sendMCPRequest_completed_by_first_delivery_witness :
    (sendMCPRequest sampleStringify 1 Tester.fresh "tools/list" none).1.timers[
        Tester.fresh.timers.length]? =
      some { promise := (sendMCPRequest sampleStringify 1 Tester.fresh "tools/list" none).2,
             state := TimerState.armed } ∧
    ∃ c,
      (Tester.deliver sampleParse
        (Tester.run sampleParse sampleStringify
          (sendMCPRequest sampleStringify 1 Tester.fresh "tools/list" none).1
          [TesterEvent.send 2 "tools/call" none])
        (sampleLine1 ++ "\n")).promises[
          (sendMCPRequest sampleStringify 1 Tester.fresh "tools/list" none).2]? = some c ∧
      (TesterEvent.timeout Tester.fresh.timers.length ∉
          [TesterEvent.send 2 "tools/call" none] →
        c.state =
          match sampleParse (sampleLine1 ++ "\n") with
          | Except.ok response => PromiseState.fulfilled response
          | Except.error e => PromiseState.rejected e) ∧
      (TesterEvent.timeout Tester.fresh.timers.length ∈
          [TesterEvent.send 2 "tools/call" none] →
        c.state = PromiseState.rejected (JsError.error "请求超时")) :=
  sendMCPRequest_completed_by_first_delivery sampleParse sampleStringify 1 Tester.fresh
    "tools/list" none [TesterEvent.send 2 "tools/call" none] (sampleLine1 ++ "\n")
    ⟨[], rfl⟩
    (by
      intro ev hev chunk h
      rw [List.mem_singleton] at hev
      rw [hev] at h
      cases h)

/-! ## Reading the text of a tool result -/

/-- C10, at the failing input: the response
`{"jsonrpc":"2.0","id":1,"result":{"content":[]}}`, whose content list is empty, is
delivered for the first request of a fresh client and handed to the caller;
`resolveLibraryId` and `getLibraryDocs` then both fail with a `TypeError` (reading
`type` of `undefined`), not with their own error; and for a first element
`{"type":"text"}` without `text`, `getLibraryDocs` fails with a `TypeError` where
`resolveLibraryId` returns `undefined`. -/
theorem resolveLibraryId_empty_content_typeError :
    sampleParse sampleLineEmptyContent = Except.ok sampleMsgEmptyContent ∧
    awaited
        (handleResponse sampleParse
          (resolveLibraryIdSend sampleStringify World.fresh "react").1
          (sampleLineEmptyContent ++ "\n")).promises
        (resolveLibraryIdSend sampleStringify World.fresh "react").2 =
      some (Except.ok sampleMsgEmptyContent) ∧
    awaited
        (handleResponse sampleParse
          (getLibraryDocsSend sampleStringify World.fresh "/facebook/react" none 10000).1
          (sampleLineEmptyContent ++ "\n")).promises
        (getLibraryDocsSend sampleStringify World.fresh "/facebook/react" none 10000).2 =
      some (Except.ok sampleMsgEmptyContent) ∧
    resolveLibraryId sampleMsgEmptyContent = Except.error JsError.typeError ∧
    getLibraryDocs sampleMsgEmptyContent = Except.error JsError.typeError ∧
    resolveLibraryId
        (Json.obj [("id", Json.num 1),
          ("result", Json.obj [("content", Json.arr [Json.obj [("type", Json.str "text")]])])]) =
      Except.ok none ∧
    getLibraryDocs
        (Json.obj [("id", Json.num 1),
          ("result", Json.obj [("content", Json.arr [Json.obj [("type", Json.str "text")]])])]) =
      Except.error JsError.typeError :=
  ⟨rfl, rfl, rfl, rfl, rfl, rfl, rfl⟩

end Context7
